import Mathlib

/-!
Verification of the storage core of the bustub-2023s repository: the LRU-K
replacer, the buffer pool manager, the B+Tree pages and the B+Tree itself,
shallowly embedded from the C++ sources.  Keys, values, page ids and frame
ids are modelled as `Int` (`-1` is `INVALID_PAGE_ID`); byte buffers are
abstracted to a `Nat` content token; `std::lower_bound` over a partitioned
range is modelled by its specified result, the partition point.
-/

namespace BusTub

/-- The result `std::lower_bound` is specified to produce on a range that is
partitioned with respect to the comparator: the index of the first element
not satisfying `p` (`l.length` when every element satisfies `p`). -/
def partitionPoint (p : α → Bool) : List α → Nat
  | [] => 0
  | a :: l => if p a then partitionPoint p l + 1 else 0

/-! ## LRU-K replacer (src/buffer/lru_k_replacer.cpp)

The companion hash maps `default_map_` / `k_map_` always hold exactly the
nodes of the corresponding list, so the embedding keeps only the lists and
reads membership off them.  The `LRUKNode` accessors live in the missing
header; `insertTimeStamp` / `updateKDistance` follow the spec data model
(bounded history of the most recent `k` timestamps, k-distance =
current timestamp - timestamp of the k-th most recent access). -/

structure LRUKNode where
  frameId : Int
  /-- access timestamps, most recent first, at most `k` kept -/
  history : List Nat
  evictable : Bool
  /-- cached k-distance, recomputed by `UpdateKDistance` -/
  kDist : Nat
deriving Repr, DecidableEq

def LRUKNode.insertTimeStamp (n : LRUKNode) (ts : Nat) (k : Nat) : LRUKNode :=
  { n with history := (ts :: n.history).take k }

def LRUKNode.updateKDistance (n : LRUKNode) (now : Nat) (k : Nat) : LRUKNode :=
  { n with kDist := now - n.history.getD (k - 1) 0 }

structure LRUKReplacer where
  /-- nodes with fewer than `k` accesses, front of the `std::list` first -/
  defaultList : List LRUKNode
  /-- nodes with at least `k` accesses, sorted by k-distance, largest first -/
  kList : List LRUKNode
  currSize : Nat
  currentTimestamp : Nat
  replacerSize : Nat
  k : Nat
deriving Repr, DecidableEq

def findNode (lst : List LRUKNode) (fid : Int) : Option LRUKNode :=
  lst.find? (fun n => n.frameId == fid)

def eraseNode (lst : List LRUKNode) (fid : Int) : List LRUKNode :=
  lst.filter (fun n => n.frameId != fid)

def setNodeEvictable (lst : List LRUKNode) (fid : Int) (flag : Bool) : List LRUKNode :=
  lst.map (fun m => if m.frameId == fid then { m with evictable := flag } else m)

/-- Helper for `LRUKReplacer::RemoveNode`: remove the first evictable node
of `lst`, scanning from the front of `lst` (RemoveNode applies this to the
reversed list, giving the back-to-front scan of the source). -/
def removeFirstEvictable : List LRUKNode → Option (LRUKNode × List LRUKNode)
  | [] => none
  | n :: rest =>
    if n.evictable then some (n, rest)
    else match removeFirstEvictable rest with
      | none => none
      | some (m, r) => some (m, n :: r)

/-- `LRUKReplacer::RemoveNode`: scan the given list from back (`rbegin`) to
front for the first evictable node, erase it and return its frame id
together with the remaining list. -/
def removeNode (lst : List LRUKNode) : Option (Int × List LRUKNode) :=
  match removeFirstEvictable lst.reverse with
  | none => none
  | some (n, r) => some (n.frameId, r.reverse)

/-- `LRUKReplacer::Evict`. -/
def evict (s : LRUKReplacer) : Option Int × LRUKReplacer :=
  if s.currSize = 0 then (none, s)
  else
    match (if s.defaultList ≠ [] then removeNode s.defaultList else none) with
    | some (fid, rest) =>
        (some fid, { s with defaultList := rest, currSize := s.currSize - 1 })
    | none =>
        match (if s.kList ≠ [] then removeNode s.kList else none) with
        | some (fid, rest) =>
            (some fid, { s with kList := rest, currSize := s.currSize - 1 })
        | none => (none, s)

/-- `LRUKReplacer::InsertKNode`: insert into the k-list, which is kept
sorted by k-distance, largest toward the front; the scan starts at the
front and stops before the first node whose k-distance is at most the new
node's (so ties go in front of their equals). -/
def insertKNode (n : LRUKNode) : List LRUKNode → List LRUKNode
  | [] => [n]
  | m :: rest => if n.kDist < m.kDist then m :: insertKNode n rest else n :: m :: rest

/-- `LRUKReplacer::RecordAccess`.  The early return fires on
`frame_id > replacer_size_` (strict comparison, before the timestamp is
incremented). -/
def recordAccess (s : LRUKReplacer) (fid : Int) : LRUKReplacer :=
  if fid > (s.replacerSize : Int) then s
  else
    let ts := s.currentTimestamp
    match findNode s.defaultList fid, findNode s.kList fid with
    | none, none =>
        let node : LRUKNode := { frameId := fid, history := [ts], evictable := false, kDist := 0 }
        { s with defaultList := node :: s.defaultList, currentTimestamp := ts + 1 }
    | some node, _ =>
        let node := node.insertTimeStamp ts s.k
        if s.k ≤ node.history.length then
          let node := node.updateKDistance ts s.k
          { s with defaultList := eraseNode s.defaultList fid,
                   kList := insertKNode node s.kList,
                   currentTimestamp := ts + 1 }
        else
          { s with
              defaultList := s.defaultList.map (fun m => if m.frameId == fid then node else m),
              currentTimestamp := ts + 1 }
    | none, some node =>
        let node := (node.insertTimeStamp ts s.k).updateKDistance ts s.k
        { s with kList := insertKNode node (eraseNode s.kList fid),
                 currentTimestamp := ts + 1 }

/-- The node tracked for `fid`, looked up like the source: default map
first, then k map. -/
def trackedNode (s : LRUKReplacer) (fid : Int) : Option LRUKNode :=
  (findNode s.defaultList fid).orElse (fun _ => findNode s.kList fid)

/-- `LRUKReplacer::SetEvictable`.  On an unknown frame the source throws;
the embedding leaves the state unchanged in that (unexercised) case. -/
def setEvictable (s : LRUKReplacer) (fid : Int) (flag : Bool) : LRUKReplacer :=
  match trackedNode s fid with
  | none => s
  | some node =>
      let sz := if node.evictable && !flag then s.currSize - 1
                else if !node.evictable && flag then s.currSize + 1 else s.currSize
      { s with currSize := sz,
               defaultList := setNodeEvictable s.defaultList fid flag,
               kList := setNodeEvictable s.kList fid flag }

/-- number of evictable nodes in a list -/
def countEvictable (lst : List LRUKNode) : Nat :=
  (lst.filter (fun n => n.evictable)).length

/-- the evictable flag of the node tracked for `fid`, if any -/
def evictableFlag (s : LRUKReplacer) (fid : Int) : Option Bool :=
  (trackedNode s fid).map (fun n => n.evictable)

/-- replacer state used for the C9 failing input: `LRUKReplacer(3, 2)` -/
def c9Replacer : LRUKReplacer :=
  { defaultList := [], kList := [], currSize := 0, currentTimestamp := 0,
    replacerSize := 3, k := 2 }

/-! ## Buffer pool manager (src/buffer/buffer_pool_manager.cpp)

Frames are a list indexed by frame id; a page's byte buffer is abstracted to
one `Nat` content token (`0` is zeroed memory, the state after
`ResetMemory`).  Disk manager calls are logged in `ioLog`, oldest first.
The source calls `DeallocatePage` on the evicted page's id; per spec section
6 this reaches the disk manager's `DeallocatePage` (its definition lives in
the missing header), so it is logged as a disk operation. -/

/-- a call into the disk manager -/
inductive DiskOp where
  | readPage (pid : Int)
  | writePage (pid : Int) (data : Nat)
  | deallocatePage (pid : Int)
deriving Repr, DecidableEq

/-- one slot of the `pages_` array: resident page id (or -1), pin counter,
dirty flag and the abstracted byte buffer -/
structure Frame where
  pageId : Int
  pinCount : Int
  isDirty : Bool
  data : Nat
deriving Repr, DecidableEq

structure BufferPoolManager where
  poolSize : Nat
  /-- the `pages_` array, frame id = position -/
  pages : List Frame
  /-- `page_table_`: page id to frame id, keys unique -/
  pageTable : List (Int × Int)
  freeList : List Int
  replacer : LRUKReplacer
  /-- `next_page_id_`, the monotone allocation counter -/
  nextPageId : Int
  /-- disk contents, page id to data -/
  disk : List (Int × Nat)
  /-- disk manager calls issued so far, oldest first -/
  ioLog : List DiskOp
deriving Repr, DecidableEq

def tableLookup (t : List (Int × Int)) (pid : Int) : Option Int :=
  (t.find? (fun e => e.1 == pid)).map (fun e => e.2)

def tableErase (t : List (Int × Int)) (pid : Int) : List (Int × Int) :=
  t.filter (fun e => e.1 != pid)

def tableInsert (t : List (Int × Int)) (pid : Int) (fid : Int) : List (Int × Int) :=
  (pid, fid) :: tableErase t pid

def defFrame : Frame := { pageId := -1, pinCount := 0, isDirty := false, data := 0 }

def frameAt (s : BufferPoolManager) (fid : Int) : Frame :=
  s.pages.getD fid.toNat defFrame

def setFrame (s : BufferPoolManager) (fid : Int) (fr : Frame) : BufferPoolManager :=
  { s with pages := s.pages.set fid.toNat fr }

def diskWrite (d : List (Int × Nat)) (pid : Int) (data : Nat) : List (Int × Nat) :=
  (pid, data) :: d.filter (fun e => e.1 != pid)

/-- `DiskManager::ReadPage`; a page never written reads back as zeroes -/
def diskRead (d : List (Int × Nat)) (pid : Int) : Nat :=
  ((d.find? (fun e => e.1 == pid)).map (fun e => e.2)).getD 0

/-- The frame-acquisition block shared verbatim by `NewPage` and
`FetchPage`: take the front of the free list if any, otherwise evict a
victim, write it back if dirty, drop it from the page table, reset the
frame memory and call `DeallocatePage` on the old page id. -/
def acquireFrame (s : BufferPoolManager) : Int × BufferPoolManager :=
  match s.freeList with
  | f :: rest => (f, { s with freeList := rest })
  | [] =>
      let er := evict s.replacer
      let fid := er.1.getD 0
      let s := { s with replacer := er.2 }
      let victim := frameAt s fid
      let s :=
        if victim.isDirty then
          { s with disk := diskWrite s.disk victim.pageId victim.data,
                   ioLog := s.ioLog ++ [DiskOp.writePage victim.pageId victim.data] }
        else s
      let s := { s with pageTable := tableErase s.pageTable victim.pageId }
      let s := setFrame s fid { victim with data := 0 }
      let s := { s with ioLog := s.ioLog ++ [DiskOp.deallocatePage victim.pageId] }
      (fid, s)

/-- `BufferPoolManager::NewPage`; returns the fresh page id (the source
returns a `Page *`, none models `nullptr`). -/
def newPage (s : BufferPoolManager) : Option Int × BufferPoolManager :=
  if s.freeList ≠ [] ∨ 0 < s.replacer.currSize then
    let fs := acquireFrame s
    let fid := fs.1
    let s := fs.2
    let newId := s.nextPageId
    let s := { s with nextPageId := s.nextPageId + 1 }
    let old := frameAt s fid
    let s := setFrame s fid { old with pageId := newId, pinCount := 1, isDirty := false }
    let s := { s with pageTable := tableInsert s.pageTable newId fid }
    let s := { s with replacer := setEvictable (recordAccess s.replacer fid) fid false }
    (some newId, s)
  else (none, s)

/-- `BufferPoolManager::FetchPage`; returns the frame id holding the page
(the source returns `&pages_[frame_id]`). -/
def fetchPage (s : BufferPoolManager) (pid : Int) : Option Int × BufferPoolManager :=
  match tableLookup s.pageTable pid with
  | some fid =>
      let fr := frameAt s fid
      let s := setFrame s fid { fr with pinCount := fr.pinCount + 1 }
      let s := { s with replacer := setEvictable (recordAccess s.replacer fid) fid false }
      (some fid, s)
  | none =>
      if s.freeList ≠ [] ∨ 0 < s.replacer.currSize then
        let fs := acquireFrame s
        let fid := fs.1
        let s := fs.2
        let s := { s with ioLog := s.ioLog ++ [DiskOp.readPage pid] }
        let old := frameAt s fid
        let s := setFrame s fid
          { old with pageId := pid, pinCount := 1, isDirty := false, data := diskRead s.disk pid }
        let s := { s with pageTable := tableInsert s.pageTable pid fid }
        let s := { s with replacer := setEvictable (recordAccess s.replacer fid) fid false }
        (some fid, s)
      else (none, s)

/-- `BufferPoolManager::UnpinPage`. -/
def unpinPage (s : BufferPoolManager) (pid : Int) (isDirty : Bool) : Bool × BufferPoolManager :=
  match tableLookup s.pageTable pid with
  | none => (false, s)
  | some fid =>
      let fr := frameAt s fid
      if fr.pinCount ≤ 0 then (false, s)
      else
        let fr := { fr with pinCount := fr.pinCount - 1, isDirty := isDirty || fr.isDirty }
        let s := setFrame s fid fr
        let s := if fr.pinCount = 0 then { s with replacer := setEvictable s.replacer fid true }
                 else s
        (true, s)

/-! ## B+Tree pages
(src/storage/page/b_plus_tree_leaf_page.cpp, b_plus_tree_internal_page.cpp)

Keys and values are `Int`; an internal page's values are child page ids.
All searches are `std::lower_bound` calls, embedded through
`partitionPoint`. -/

/-- `BPlusTreeLeafPage::FindValue`: lower_bound with comparator `<` over
the first `size - 1` entries, then an equality test on the entry found
(which may be the last one).  Returns the value and the slot index.
The source reads `array_ + GetSize() - 1` and is not meaningful on an empty
page (`GetSize() = 0` underflows the range); the embedding returns none
there. -/
def leafFindValue (entries : List (Int × Int)) (key : Int) : Option (Int × Nat) :=
  if entries.length = 0 then none
  else
    let i := partitionPoint (fun e => decide (e.1 < key)) (entries.take (entries.length - 1))
    match entries.get? i with
    | some e => if e.1 = key then some (e.2, i) else none
    | none => none

/-- `BPlusTreeLeafPage::Insert`: lower_bound over the whole page, reject a
duplicate key, otherwise shift the tail right and place the new entry.
Returns the updated entry list, or none when the key is a duplicate. -/
def leafInsert (entries : List (Int × Int)) (key val : Int) : Option (List (Int × Int)) :=
  let i := partitionPoint (fun e => decide (e.1 < key)) entries
  match entries.get? i with
  | some e =>
      if e.1 = key then none
      else some (entries.take i ++ (key, val) :: entries.drop i)
  | none => some (entries.take i ++ (key, val) :: entries.drop i)

/-- `BPlusTreeLeafPage::Delete`: empty page refuses; otherwise lower_bound
over the first `size - 1` entries and removal when both key and value
match. -/
def leafDelete (entries : List (Int × Int)) (key val : Int) : Option (List (Int × Int)) :=
  if entries.length = 0 then none
  else
    let i := partitionPoint (fun e => decide (e.1 < key)) (entries.take (entries.length - 1))
    match entries.get? i with
    | some e =>
        if e.1 = key ∧ e.2 = val then some (entries.take i ++ entries.drop (i + 1))
        else none
    | none => none

/-- `BPlusTreeInternalPage::FindValue`: lower_bound with comparator `<=`
over the whole page (the placeholder key at index 0 participates), then
`std::prev`.  Returns the resulting slot index, which is `-1` when every
key compares greater than the search key, and the child found there; the
out-of-bounds read at index `-1` is modelled as none. -/
def internalFindValue (entries : List (Int × Int)) (key : Int) : Int × Option Int :=
  let i := partitionPoint (fun e => decide (e.1 ≤ key)) entries
  ((i : Int) - 1, if i = 0 then none else (entries.get? (i - 1)).map (fun e => e.2))

/-- `BPlusTreeInternalPage::Insert`: a key below the placeholder key at
index 0 shifts the whole array right and lands at index 0; otherwise
lower_bound over indices `[1, size)`.  (On an empty page the source reads
uninitialised memory; the embedding just inserts - the tree never inserts
into an empty internal page.) -/
def internalInsert (entries : List (Int × Int)) (key : Int) (child : Int) : List (Int × Int) :=
  match entries with
  | [] => [(key, child)]
  | e0 :: rest =>
      if key < e0.1 then (key, child) :: e0 :: rest
      else
        let i := 1 + partitionPoint (fun e => decide (e.1 < key)) rest
        entries.take i ++ (key, child) :: entries.drop i

/-- `BPlusTreeInternalPage::Delete`: same shape as the leaf variant. -/
def internalDelete (entries : List (Int × Int)) (key val : Int) : Option (List (Int × Int)) :=
  let i := partitionPoint (fun e => decide (e.1 < key)) (entries.take (entries.length - 1))
  match entries.get? i with
  | some e =>
      if e.1 = key ∧ e.2 = val then some (entries.take i ++ entries.drop (i + 1))
      else none
  | none => none

/-! ## B+Tree (src/storage/index/b_plus_tree.cpp)

The buffer pool is abstracted away: the tree state is the header's root
page id, an association list of live pages and the pool's allocation
counter.  Fuel bounds the descent depth.  `Init(leaf_max_size_)` resolves
through defaulted parameters of the missing header; per spec section 4.D a
page's `max_size` is set at construction from the tree's
`leaf_max_size_`/`internal_max_size_`. -/

/-- a B+Tree page: tagged view with size, max size, parent id, and for
leaves the right-sibling pointer -/
inductive BTPage where
  | leaf (entries : List (Int × Int)) (next : Int) (parent : Int) (maxSize : Nat)
  | internal (entries : List (Int × Int)) (parent : Int) (maxSize : Nat)
deriving Repr, DecidableEq

structure BPlusTree where
  rootPageId : Int
  pages : List (Int × BTPage)
  nextPageId : Int
  leafMaxSize : Nat
  internalMaxSize : Nat
deriving Repr, DecidableEq

def getPage (t : BPlusTree) (pid : Int) : Option BTPage :=
  (t.pages.find? (fun e => e.1 == pid)).map (fun e => e.2)

def setPage (t : BPlusTree) (pid : Int) (pg : BTPage) : BPlusTree :=
  { t with pages := (pid, pg) :: t.pages.filter (fun e => e.1 != pid) }

def BTPage.setParent : BTPage → Int → BTPage
  | .leaf e n _ m, p => .leaf e n p m
  | .internal e _ m, p => .internal e p m

def setParentOf (t : BPlusTree) (pid : Int) (parent : Int) : BPlusTree :=
  match getPage t pid with
  | some pg => setPage t pid (pg.setParent parent)
  | none => t

/-- The descent loop shared by `GetValue`, `Insert` and `Remove`: walk from
`pid` down to the leaf responsible for `key`, stacking the internal pages
passed (`ctx.write_set_`) and recording each child's slot index within its
parent (`page_id_to_index`). -/
def findLeafPath (t : BPlusTree) (key : Int) :
    Nat → Int → List Int → List (Int × Int) → Option (List Int × List (Int × Int) × Int)
  | 0, _, _, _ => none
  | Nat.succ fuel, pid, stack, idxMap =>
    match getPage t pid with
    | none => none
    | some (.leaf _ _ _ _) => some (stack, idxMap, pid)
    | some (.internal entries _ _) =>
        match internalFindValue entries key with
        | (idx, some child) =>
            findLeafPath t key fuel child (stack ++ [pid]) (tableInsert idxMap child idx)
        | (_, none) => none

/-- `BPlusTree::GetValue`. -/
def getValue (t : BPlusTree) (key : Int) (fuel : Nat) : Option Int :=
  if t.rootPageId = -1 then none
  else
    match findLeafPath t key fuel t.rootPageId [] [] with
    | some (_, _, leafPid) =>
        match getPage t leafPid with
        | some (.leaf entries _ _ _) => (leafFindValue entries key).map (fun r => r.1)
        | _ => none
    | none => none

/-- `BPlusTree::InsertInParent`: `curPid` is the page that was split,
`newPid` its fresh right sibling, `key` the pushed key, `stack` the
remaining ancestor path (nearest parent last). -/
def insertInParent (key : Int) (curPid newPid : Int) :
    Nat → BPlusTree → List Int → BPlusTree
  | 0, t, _ => t
  | Nat.succ fuel, t, stack =>
    if curPid = t.rootPageId then
      -- allocate a new internal root: SetValueAt(0, cur) on zeroed memory,
      -- SetKeyValueAt(1, key, new), IncreaseSize(2); update both children's
      -- parent page id and store the new root id in the header
      let rootPid := t.nextPageId
      let t := { t with nextPageId := t.nextPageId + 1 }
      let t := setPage t rootPid (.internal [(0, curPid), (key, newPid)] (-1) t.internalMaxSize)
      let t := setParentOf t curPid rootPid
      let t := setParentOf t newPid rootPid
      { t with rootPageId := rootPid }
    else
      match stack.getLast? with
      | none => t
      | some parentPid =>
          let stack := stack.dropLast
          match getPage t parentPid with
          | some (.internal pentries pparent pmax) =>
              if pentries.length < pmax then
                setPage t parentPid (.internal (internalInsert pentries key newPid) pparent pmax)
              else
                -- split the parent before inserting
                let sibPid := t.nextPageId
                let t := { t with nextPageId := t.nextPageId + 1 }
                let minSize := (pmax + 1) / 2
                let pushedKey := (pentries.getD minSize (0, 0)).1
                let lastKey := (pentries.getD (minSize - 1) (0, 0)).1
                let isFirstCase := pushedKey < key
                let isSecondCase := key < pushedKey ∧ lastKey < key
                if isFirstCase ∨ isSecondCase then
                  let t := setPage t parentPid
                    (.internal (pentries.take minSize) pparent pmax)
                  let t := setPage t sibPid
                    (.internal (internalInsert (pentries.drop minSize) key newPid)
                      pparent t.internalMaxSize)
                  let promoted := if isSecondCase then key else pushedKey
                  insertInParent promoted parentPid sibPid fuel t stack
                else
                  let t := setPage t parentPid
                    (.internal (internalInsert (pentries.take (minSize - 1)) key newPid)
                      pparent pmax)
                  let t := setPage t sibPid
                    (.internal (pentries.drop (minSize - 1)) pparent t.internalMaxSize)
                  insertInParent lastKey parentPid sibPid fuel t stack
          | _ => t

/-- `BPlusTree::Insert`.  Returns the source's boolean result together with
the new tree state. -/
def insertTree (t : BPlusTree) (key val : Int) (fuel : Nat) : Bool × BPlusTree :=
  if t.rootPageId = -1 then
    -- empty tree: allocate a root leaf and insert the single entry
    let pid := t.nextPageId
    let t := { t with nextPageId := t.nextPageId + 1, rootPageId := pid }
    let entries := (leafInsert [] key val).getD []
    (true, setPage t pid (.leaf entries (-1) (-1) t.leafMaxSize))
  else
    match findLeafPath t key fuel t.rootPageId [] [] with
    | none => (false, t)
    | some (stack, _, leafPid) =>
        match getPage t leafPid with
        | some (.leaf entries next parent mx) =>
            if (entries.length : Int) < (mx : Int) - 1 then
              -- fast path: room left in the leaf
              match leafInsert entries key val with
              | none => (false, t)
              | some ent => (true, setPage t leafPid (.leaf ent next parent mx))
            else
              match leafInsert entries key val with
              | none => (false, t)
              | some ent =>
                  -- split: move entries [min, cur) to a fresh right sibling,
                  -- link the next_page_id chain, push KeyAt(min) up
                  let minSize := mx / 2
                  let newPid := t.nextPageId
                  let t := { t with nextPageId := t.nextPageId + 1 }
                  let pushedKey := (ent.getD minSize (0, 0)).1
                  let t := setPage t newPid (.leaf (ent.drop minSize) next (-1) t.leafMaxSize)
                  let t := setPage t leafPid (.leaf (ent.take minSize) newPid parent mx)
                  (true, insertInParent pushedKey leafPid newPid fuel t stack)
        | _ => (false, t)

/-- Modelled from the spec: `BPlusTree::DeleteInternalEntry` is called at
src/storage/index/b_plus_tree.cpp:524 but its definition is not among the
source files.  Per spec section 4.E it deletes the separating
`(up_key, up_value)` entry from the parent and applies the same rebalance
logic as the leaf variant with internal-page merge/redistribute variants;
per scenario S4 the root shrinks to its remaining child when the root is
left with a single entry. -/
def deleteInternalEntry (key : Int) (val : Int) (curPid : Int) :
    Nat → BPlusTree → List Int → List (Int × Int) → BPlusTree
  | 0, t, _, _ => t
  | Nat.succ fuel, t, stack, idxMap =>
    match getPage t curPid with
    | some (.internal entries parent mx) =>
        match internalDelete entries key val with
        | none => t
        | some ent =>
            let t := setPage t curPid (.internal ent parent mx)
            if curPid = t.rootPageId ∧ ent.length = 1 then
              { t with rootPageId := (ent.getD 0 (0, 0)).2 }
            else if curPid = t.rootPageId then t
            else if (mx : Int) ≤ (ent.length : Int) then t
            else
              match stack.getLast?, tableLookup idxMap curPid with
              | some parentPid, some idxInParent =>
                  (match getPage t parentPid with
                  | some (.internal pentries pparent pmax) =>
                      let isLast := idxInParent = (pentries.length : Int) - 1
                      let sibPid :=
                        if isLast then (pentries.getD (idxInParent - 1).toNat (0, 0)).2
                        else (pentries.getD (idxInParent + 1).toNat (0, 0)).2
                      (match getPage t sibPid with
                      | some (.internal sEntries sParent sMx) =>
                          let leftPid := if isLast then sibPid else curPid
                          let rightPid := if isLast then curPid else sibPid
                          let leftEntries := if isLast then sEntries else ent
                          let rightEntries := if isLast then ent else sEntries
                          let leftMx := if isLast then sMx else mx
                          let upKey := if isLast then (pentries.getD idxInParent.toNat (0, 0)).1
                            else (pentries.getD (idxInParent + 1).toNat (0, 0)).1
                          let upVal := if isLast then curPid else sibPid
                          if leftEntries.length + rightEntries.length < leftMx then
                            let t := setPage t leftPid
                              (.internal (leftEntries ++ rightEntries)
                                (if isLast then sParent else parent) leftMx)
                            deleteInternalEntry upKey upVal parentPid fuel t
                              stack.dropLast idxMap
                          else
                            if isLast then
                              let moved := rightEntries  -- right gains left's last entry
                              let t := setPage t rightPid
                                (.internal ((leftEntries.getD (leftEntries.length - 1) (0, 0))
                                  :: moved) parent mx)
                              let t := setPage t leftPid
                                (.internal leftEntries.dropLast sParent sMx)
                              setPage t parentPid (.internal
                                (pentries.set idxInParent.toNat
                                  ((leftEntries.getD (leftEntries.length - 1) (0, 0)).1,
                                    (pentries.getD idxInParent.toNat (0, 0)).2))
                                pparent pmax)
                            else
                              let t := setPage t leftPid
                                (.internal (leftEntries ++ [rightEntries.getD 0 (0, 0)])
                                  parent mx)
                              let t := setPage t rightPid
                                (.internal (rightEntries.drop 1) sParent sMx)
                              setPage t parentPid (.internal
                                (pentries.set (idxInParent + 1).toNat
                                  (((rightEntries.drop 1).getD 0 (0, 0)).1,
                                    (pentries.getD (idxInParent + 1).toNat (0, 0)).2))
                                pparent pmax)
                      | _ => t)
                  | _ => t)
              | _, _ => t
    | _ => t

/-- `BPlusTree::DeleteEntry` (the leaf-level part, src lines 448-540).  The
source is missing a closing brace after the root-became-empty branch; per
spec section 9 open question 2, the intended control flow is embedded:
return after updating the header when the leaf is the empty root, return
when it is the (non-empty) root, return when its size is still at least
`GetMaxSize()`, otherwise rebalance with a sibling. -/
def deleteEntry (key : Int) (val : Int) (curPid : Int)
    (fuel : Nat) (t : BPlusTree) (stack : List Int) (idxMap : List (Int × Int)) : BPlusTree :=
  match getPage t curPid with
  | some (.leaf entries next parent mx) =>
      (match leafDelete entries key val with
      | none => t
      | some ent =>
          let t := setPage t curPid (.leaf ent next parent mx)
          if curPid = t.rootPageId ∧ ent.length = 0 then { t with rootPageId := -1 }
          else if curPid = t.rootPageId then t
          else if (mx : Int) ≤ (ent.length : Int) then t
          else
            match stack.getLast?, tableLookup idxMap curPid with
            | some parentPid, some idxInParent =>
                (match getPage t parentPid with
                | some (.internal pentries pparent pmax) =>
                    let isLast := idxInParent = (pentries.length : Int) - 1
                    let sibPid :=
                      if isLast then (pentries.getD (idxInParent - 1).toNat (0, 0)).2
                      else (pentries.getD (idxInParent + 1).toNat (0, 0)).2
                    (match getPage t sibPid with
                    | some (.leaf sEntries sNext sParent sMx) =>
                        let leftPid := if isLast then sibPid else curPid
                        let rightPid := if isLast then curPid else sibPid
                        let leftEntries := if isLast then sEntries else ent
                        let rightEntries := if isLast then ent else sEntries
                        let rightNext := if isLast then next else sNext
                        let leftParent := if isLast then sParent else parent
                        let rightParent := if isLast then parent else sParent
                        let leftMx := if isLast then sMx else mx
                        let rightMx := if isLast then mx else sMx
                        let upKey := if isLast then (pentries.getD idxInParent.toNat (0, 0)).1
                          else (pentries.getD (idxInParent + 1).toNat (0, 0)).1
                        let upVal := if isLast then curPid else sibPid
                        if leftEntries.length + rightEntries.length < leftMx then
                          -- merge right into left and fix the leaf chain
                          let t := setPage t leftPid
                            (.leaf (leftEntries ++ rightEntries) rightNext leftParent leftMx)
                          deleteInternalEntry upKey upVal parentPid fuel t
                            stack.dropLast idxMap
                        else
                          -- redistribute one entry across the boundary
                          if isLast then
                            let moved := leftEntries.getD (leftEntries.length - 1) (0, 0)
                            let t := setPage t rightPid
                              (.leaf (moved :: rightEntries) next rightParent rightMx)
                            let t := setPage t leftPid
                              (.leaf leftEntries.dropLast sNext leftParent leftMx)
                            setPage t parentPid (.internal
                              (pentries.set idxInParent.toNat
                                (moved.1, (pentries.getD idxInParent.toNat (0, 0)).2))
                              pparent pmax)
                          else
                            let moved := rightEntries.getD 0 (0, 0)
                            let t := setPage t leftPid
                              (.leaf (leftEntries ++ [moved]) next leftParent leftMx)
                            let t := setPage t rightPid
                              (.leaf (rightEntries.drop 1) sNext rightParent rightMx)
                            setPage t parentPid (.internal
                              (pentries.set (idxInParent + 1).toNat
                                (((rightEntries.drop 1).getD 0 (0, 0)).1,
                                  (pentries.getD (idxInParent + 1).toNat (0, 0)).2))
                              pparent pmax)
                    | _ => t)
                | _ => t)
            | _, _ => t)
  | _ => t

/-- `BPlusTree::Remove`. -/
def removeTree (t : BPlusTree) (key : Int) (fuel : Nat) : BPlusTree :=
  if t.rootPageId = -1 then t
  else
    match findLeafPath t key fuel t.rootPageId [] [] with
    | none => t
    | some (stack, idxMap, leafPid) =>
        match getPage t leafPid with
        | some (.leaf entries _ _ _) =>
            match leafFindValue entries key with
            | none => t
            | some (val, _) => deleteEntry key val leafPid fuel t stack idxMap
        | _ => t

/-! ## Index iterator (src/storage/index/index_iterator.cpp) -/

structure IndexIterator where
  curPageId : Int
  index : Int
  entry : Int × Int
deriving Repr, DecidableEq

/-- `IndexIterator::IsEnd`: on the last entry of a leaf whose
`next_page_id` is INVALID.  (The source fetches `cur_page_id_`
unconditionally; a position not naming a live leaf is modelled as not
end.) -/
def iterIsEnd (t : BPlusTree) (it : IndexIterator) : Bool :=
  match getPage t it.curPageId with
  | some (.leaf entries next _ _) => next = -1 ∧ it.index = (entries.length : Int) - 1
  | _ => false

/-- `IndexIterator::operator++`. -/
def iterNext (t : BPlusTree) (it : IndexIterator) : IndexIterator :=
  if it.curPageId = -1 then it
  else if iterIsEnd t it then { curPageId := -1, index := -1, entry := it.entry }
  else
    match getPage t it.curPageId with
    | some (.leaf entries next _ _) =>
        if it.index < (entries.length : Int) - 1 then
          let i := it.index + 1
          { it with index := i, entry := entries.getD i.toNat (0, 0) }
        else
          match getPage t next with
          | some (.leaf nEntries _ _ _) =>
              { curPageId := next, index := 0, entry := nEntries.getD 0 (0, 0) }
          | _ => it
    | _ => it

/-! ## Concrete scenario states (S3 / S4, spec section 8)

A fresh tree with `leaf_max_size = 4`, `internal_max_size = 5`, keys
inserted with themselves as values. -/

def emptyTree : BPlusTree :=
  { rootPageId := -1, pages := [], nextPageId := 0, leafMaxSize := 4, internalMaxSize := 5 }

def insertKey (t : BPlusTree) (k : Int) : BPlusTree := (insertTree t k k 20).2

/-- the tree after inserting 1, 2, 3 -/
def treeAfter3 : BPlusTree := insertKey (insertKey (insertKey emptyTree 1) 2) 3

/-- the tree after inserting 1, 2, 3, 4 -/
def treeAfter4 : BPlusTree := insertKey treeAfter3 4

/-- the tree after inserting 1, 2, 3, 4, 5 - the S3 state -/
def treeS3 : BPlusTree := insertKey treeAfter4 5

/-- S4: starting from S3, delete 5 -/
def treeS4a : BPlusTree := removeTree treeS3 5 20

/-- S4: starting from S3, delete 5 then 4 -/
def treeS4b : BPlusTree := removeTree treeS4a 4 20

/-- internal page used to instantiate the C4 theorem -/
def c4Entries : List (Int × Int) := [(1, 10), (5, 20), (8, 30)]

/-- replacer state used to instantiate the C3 theorem: two nodes with fewer
than k accesses (only the older, frame 2, evictable) and two nodes in the
k-list sorted by k-distance -/
def c3State : LRUKReplacer :=
  { defaultList :=
      [{ frameId := 1, history := [7], evictable := false, kDist := 0 },
       { frameId := 2, history := [3], evictable := true, kDist := 0 }],
    kList :=
      [{ frameId := 4, history := [6, 1], evictable := true, kDist := 5 },
       { frameId := 5, history := [5, 4], evictable := false, kDist := 3 }],
    currSize := 2, currentTimestamp := 8, replacerSize := 6, k := 2 }

/-- buffer pool state used to instantiate the C7 theorem: two frames, page
10 resident in frame 0 (pinned, dirty), page 11 resident in frame 1 (pin
count 1, about to reach zero) -/
def c67Pool : BufferPoolManager :=
  { poolSize := 2,
    pages := [{ pageId := 10, pinCount := 1, isDirty := true, data := 7 },
              { pageId := 11, pinCount := 1, isDirty := true, data := 9 }],
    pageTable := [(10, 0), (11, 1)],
    freeList := [],
    replacer :=
      { defaultList :=
          [{ frameId := 1, history := [1], evictable := false, kDist := 0 },
           { frameId := 0, history := [0], evictable := false, kDist := 0 }],
        kList := [], currSize := 0, currentTimestamp := 2, replacerSize := 2, k := 2 },
    nextPageId := 12, disk := [(10, 3)], ioLog := [] }

/-- buffer pool state used to instantiate the C6 theorem: free list empty,
frame 1 holds page 11, is unpinned, evictable and dirty -/
def c6Pool : BufferPoolManager :=
  { poolSize := 2,
    pages := [{ pageId := 10, pinCount := 1, isDirty := false, data := 7 },
              { pageId := 11, pinCount := 0, isDirty := true, data := 9 }],
    pageTable := [(10, 0), (11, 1)],
    freeList := [],
    replacer :=
      { defaultList :=
          [{ frameId := 1, history := [1], evictable := true, kDist := 0 },
           { frameId := 0, history := [0], evictable := false, kDist := 0 }],
        kList := [], currSize := 1, currentTimestamp := 2, replacerSize := 2, k := 2 },
    nextPageId := 12, disk := [(10, 3)], ioLog := [] }

/-- buffer pool state used to instantiate the C10 theorem: both frames
pinned, free list empty, no evictable frame -/
def c10Pool : BufferPoolManager :=
  { poolSize := 2,
    pages := [{ pageId := 10, pinCount := 1, isDirty := false, data := 7 },
              { pageId := 11, pinCount := 2, isDirty := true, data := 9 }],
    pageTable := [(10, 0), (11, 1)],
    freeList := [],
    replacer :=
      { defaultList :=
          [{ frameId := 1, history := [1], evictable := false, kDist := 0 },
           { frameId := 0, history := [0], evictable := false, kDist := 0 }],
        kList := [], currSize := 0, currentTimestamp := 2, replacerSize := 2, k := 2 },
    nextPageId := 12, disk := [(10, 3)], ioLog := [] }

/-! ## Theorems -/

theorem partitionPoint_le_length (p : α → Bool) (l : List α) :
    partitionPoint p l ≤ l.length := by
  induction l with
  | nil => simp [partitionPoint]
  | cons a l ih =>
    by_cases h : p a
    · simp [partitionPoint, h]; omega
    · simp [partitionPoint, h]

theorem partitionPoint_true_of_lt (p : α → Bool) (d : α) (l : List α) :
    ∀ i, i < partitionPoint p l → p (l.getD i d) = true := by
  induction l with
  | nil => intro i h; simp [partitionPoint] at h
  | cons a l ih =>
    intro i h
    by_cases hpa : p a
    · cases i with
      | zero => simpa using hpa
      | succ j =>
        simp only [partitionPoint, if_pos hpa] at h
        simpa using ih j (by omega)
    · simp [partitionPoint, hpa] at h

theorem partitionPoint_false_at (p : α → Bool) (d : α) (l : List α)
    (h : partitionPoint p l < l.length) : p (l.getD (partitionPoint p l) d) = false := by
  induction l with
  | nil => simp at h
  | cons a l ih =>
    by_cases hpa : p a
    · simp only [partitionPoint, if_pos hpa, List.length_cons] at h ⊢
      simpa using ih (by omega)
    · simp [partitionPoint, hpa]

theorem find?_filter_ne (l : List (Int × α)) (p q : Int) (h : q ≠ p) :
    (l.filter (fun e => e.1 != p)).find? (fun e => e.1 == q) =
      l.find? (fun e => e.1 == q) := by
  induction l with
  | nil => rfl
  | cons a l ih =>
    by_cases ha : a.1 = p
    · have h1 : (a.1 != p) = false := by simp [ha]
      have h2 : (a.1 == q) = false := by simp [ha]; omega
      simp [List.filter_cons, h1, List.find?_cons, h2, ih]
    · have h1 : (a.1 != p) = true := by simp [ha]
      by_cases haq : a.1 = q
      · simp [List.filter_cons, h1, List.find?_cons, haq, h]
      · have h2 : (a.1 == q) = false := by simp [haq]
        simp [List.filter_cons, h1, List.find?_cons, h2, ih]

theorem getPage_setPage (t : BPlusTree) (p q : Int) (pg : BTPage) :
    getPage (setPage t p pg) q = if q = p then some pg else getPage t q := by
  by_cases h : q = p
  · simp [getPage, setPage, h]
  · have h2 : (p == q) = false := by simp; omega
    simp [getPage, setPage, h, h2, find?_filter_ne _ _ _ h]

/-- Claim C9 (the code violates it): `RecordAccess` is claimed to reject
every `frame_id ≥ replacer_size_`, but the source guard is the strict
comparison `frame_id > replacer_size_`, so the out-of-range boundary value
`frame_id = replacer_size_` (here 3, on a replacer of size 3 whose frames
are 0..2) is admitted: a node is created at the front of the default list
and `current_timestamp` advances.  A frame id strictly above
`replacer_size_` is rejected with no state change. -/
theorem c9_recordAccess_boundary_admitted :
    (recordAccess c9Replacer 3).defaultList =
      [{ frameId := 3, history := [0], evictable := false, kDist := 0 }] ∧
    (recordAccess c9Replacer 3).currentTimestamp = 1 ∧
    recordAccess c9Replacer 4 = c9Replacer := by decide

/-- Claim C2, counterexample: on the code, the split already happens at the
insert of 4, not 5.  After inserting 1, 2, 3, 4 into a fresh tree with
leaf_max_size = 4 and internal_max_size = 5 the root is already an internal
page over the two leaves [1, 2] and [3, 4]; no leaf containing
[1, 2, 3, 4] exists at the moment 5 is inserted, so the claimed
"after the insert of 5, the leaf containing 1, 2, 3, 4 splits" is false. -/
theorem c2_counterexample :
    treeAfter4 =
      { rootPageId := 2,
        pages := [(1, .leaf [(3, 3), (4, 4)] (-1) 2 4),
                  (0, .leaf [(1, 1), (2, 2)] 1 2 4),
                  (2, .internal [(0, 0), (3, 1)] (-1) 5)],
        nextPageId := 3, leafMaxSize := 4, internalMaxSize := 5 } := by decide

/-- Claim C2 (amended): with leaf_max_size = 4 and internal_max_size = 5
and inserts of 1..5 in order, the tree is a single leaf [1, 2, 3] after the
first three inserts; the fast path requires size < max_size - 1 before the
insert, so the insert of 4 overflows the leaf to [1, 2, 3, 4] and splits it
into leaves [1, 2] and [3, 4] linked by next_page_id, pushing up
KeyAt(min_size) = KeyAt(2) = 3 of the overflowed leaf before truncation as
the separator of a new internal root whose children are the two leaves; the
insert of 5 then lands in the right leaf, so the final tree has root
separator 3 over leaves [1, 2] and [3, 4, 5] linked by next_page_id. -/
theorem c2_split_at_insert_of_4 :
    getPage treeAfter3 treeAfter3.rootPageId = some (.leaf [(1, 1), (2, 2), (3, 3)] (-1) (-1) 4)
    ∧ leafInsert [(1, 1), (2, 2), (3, 3)] 4 4 = some [(1, 1), (2, 2), (3, 3), (4, 4)]
    ∧ (([(1, 1), (2, 2), (3, 3), (4, 4)] : List (Int × Int)).getD (4 / 2) (0, 0)).1 = 3
    ∧ treeAfter4.rootPageId = 2
    ∧ getPage treeAfter4 2 = some (.internal [(0, 0), (3, 1)] (-1) 5)
    ∧ getPage treeAfter4 0 = some (.leaf [(1, 1), (2, 2)] 1 2 4)
    ∧ getPage treeAfter4 1 = some (.leaf [(3, 3), (4, 4)] (-1) 2 4)
    ∧ treeS3.rootPageId = 2
    ∧ getPage treeS3 2 = some (.internal [(0, 0), (3, 1)] (-1) 5)
    ∧ getPage treeS3 0 = some (.leaf [(1, 1), (2, 2)] 1 2 4)
    ∧ getPage treeS3 1 = some (.leaf [(3, 3), (4, 4), (5, 5)] (-1) 2 4) := by decide

/-- Claim C4, counterexample: take the internal page with entries
[(10, 100), (20, 200)] (placeholder key 10 at index 0, routing key 20 at
index 1, so the routing keys at indices 1..n-1 are strictly increasing) and
search key 3.  The claim predicts the child at the largest index i with
i = 0 or KeyAt(i) ≤ key, i.e. slot 0 and child 100.  The source's
lower_bound comparator `comparator(lhs, rhs) <= 0` also tests the
placeholder key 10 > 3, lands on index 0 and then takes `std::prev`,
producing slot index -1 and an out-of-bounds read (modelled as none). -/
theorem c4_counterexample :
    internalFindValue [(10, 100), (20, 200)] 3 = (-1, none) ∧
    internalFindValue [(10, 100), (20, 200)] 3 ≠ (0, some 100) := by decide

/-- Claim C4 (amended): for every internal page with size n ≥ 2 whose
routing keys at indices 1..n-1 are strictly increasing, and every search
key that is at least the placeholder key at index 0, `FindValue` returns
the child stored at the largest index i with KeyAt(i) ≤ key, and the slot
out-parameter receives that index. -/
theorem c4_internalFindValue_largest_le (entries : List (Int × Int)) (key : Int)
    (hn : 2 ≤ entries.length)
    (hsorted : ∀ j, j < entries.length → ∀ i, i < j → 1 ≤ i →
      (entries.getD i (0, 0)).1 < (entries.getD j (0, 0)).1)
    (h0 : (entries.getD 0 (0, 0)).1 ≤ key) :
    ∃ i : Nat, i < entries.length ∧
      internalFindValue entries key = ((i : Int), some (entries.getD i (0, 0)).2) ∧
      (entries.getD i (0, 0)).1 ≤ key ∧
      (∀ j, j < entries.length → (entries.getD j (0, 0)).1 ≤ key → j ≤ i) := by
  have hpp := partitionPoint_le_length (fun e => decide (e.1 ≤ key)) entries
  set pp := partitionPoint (fun e => decide (e.1 ≤ key)) entries with hppdef
  have hpos : 1 ≤ pp := by
    rcases entries with _ | ⟨e0, rest⟩
    · simp at hn
    · have : (decide (e0.1 ≤ key)) = true := by
        simpa using h0
      simp [partitionPoint, this] at hppdef ⊢
      omega
  refine ⟨pp - 1, by omega, ?_, ?_, ?_⟩
  · have hget : entries.get? (pp - 1) = some (entries.getD (pp - 1) (0, 0)) := by
      rw [List.getD_eq_getD_get?]
      cases hq : entries.get? (pp - 1) with
      | none =>
          have := List.get?_eq_none.mp hq
          omega
      | some v => rfl
    have hne : pp ≠ 0 := by omega
    simp only [internalFindValue, ← hppdef, Prod.mk.injEq]
    refine ⟨by omega, ?_⟩
    rw [if_neg hne, hget]
    rfl
  · have := partitionPoint_true_of_lt (fun e => decide (e.1 ≤ key)) (0, 0) entries (pp - 1)
      (by omega)
    simpa using this
  · intro j hj hle
    by_contra hgt
    push_neg at hgt
    have hppj : pp ≤ j := by omega
    have hpplt : pp < entries.length := by omega
    have hfalse := partitionPoint_false_at (fun e => decide (e.1 ≤ key)) (0, 0) entries hpplt
    rw [← hppdef] at hfalse
    have hkeypp : ¬ (entries.getD pp (0, 0)).1 ≤ key := by
      simpa using hfalse
    rcases Nat.eq_or_lt_of_le hppj with hEq | hlt
    · exact hkeypp (hEq ▸ hle)
    · have := hsorted j hj pp hlt (by omega)
      omega

/-- Witness for C4's amended theorem at the page c4Entries and key 6. -/
theorem c4_internalFindValue_largest_le_witness :
    (2 ≤ c4Entries.length
      ∧ (∀ j, j < c4Entries.length → ∀ i, i < j → 1 ≤ i →
          (c4Entries.getD i (0, 0)).1 < (c4Entries.getD j (0, 0)).1)
      ∧ (c4Entries.getD 0 (0, 0)).1 ≤ 6)
    ∧ (∃ i : Nat, i < c4Entries.length ∧
        internalFindValue c4Entries 6 = ((i : Int), some (c4Entries.getD i (0, 0)).2) ∧
        (c4Entries.getD i (0, 0)).1 ≤ 6 ∧
        (∀ j, j < c4Entries.length → (c4Entries.getD j (0, 0)).1 ≤ 6 → j ≤ i)) :=
  ⟨⟨by decide, by decide, by decide⟩,
    c4_internalFindValue_largest_le c4Entries 6 (by decide) (by decide) (by decide)⟩

theorem removeFirstEvictable_eq_none (l : List LRUKNode)
    (h : l.find? (fun m => m.evictable) = none) : removeFirstEvictable l = none := by
  induction l with
  | nil => rfl
  | cons a l ih =>
    rw [List.find?_cons] at h
    cases ha : a.evictable with
    | true => simp [ha] at h
    | false =>
      simp only [ha] at h
      simp [removeFirstEvictable, ha, ih h]

theorem removeFirstEvictable_eq_some (l : List LRUKNode) (n : LRUKNode)
    (h : l.find? (fun m => m.evictable) = some n) :
    removeFirstEvictable l = some (n, l.eraseP (fun m => m.evictable)) := by
  induction l with
  | nil => simp at h
  | cons a l ih =>
    rw [List.find?_cons] at h
    cases ha : a.evictable with
    | true =>
      simp only [ha] at h
      cases h
      simp [removeFirstEvictable, ha, List.eraseP_cons, and_self]
    | false =>
      simp only [ha] at h
      simp [removeFirstEvictable, ha, List.eraseP_cons, ih h]

theorem find?_min_of_sorted (l : List LRUKNode) (p : LRUKNode → Bool) (n : LRUKNode)
    (hsorted : List.Pairwise (fun a b => a.kDist ≤ b.kDist) l)
    (h : l.find? p = some n) : ∀ m ∈ l, p m = true → n.kDist ≤ m.kDist := by
  induction l with
  | nil => simp at h
  | cons a l ih =>
    rw [List.find?_cons] at h
    rw [List.pairwise_cons] at hsorted
    intro m hm hpm
    cases ha : p a with
    | true =>
      simp only [ha] at h
      cases h
      rcases List.mem_cons.mp hm with rfl | hm
      · exact Nat.le_refl _
      · exact hsorted.1 m hm
    | false =>
      simp only [ha] at h
      rcases List.mem_cons.mp hm with rfl | hm
      · rw [ha] at hpm; exact absurd hpm (by simp)
      · exact ih hsorted.2 h m hm hpm

theorem countEvictable_eq_zero_iff (l : List LRUKNode) :
    countEvictable l = 0 ↔ l.find? (fun m => m.evictable) = none := by
  rw [countEvictable, List.length_eq_zero, List.filter_eq_nil_iff, List.find?_eq_none]

theorem countEvictable_reverse (l : List LRUKNode) :
    countEvictable l.reverse = countEvictable l := by
  simp [countEvictable, List.filter_reverse]

/-- Claim C3: for every replacer state whose `curr_size` counts the
evictable nodes of the two lists and whose k-list is sorted by k-distance,
largest first, `Evict` returns none exactly when `curr_size = 0`; otherwise
it removes and returns the first evictable node found scanning the default
list back to front, and only when the default list holds no evictable node
does it take the first evictable node scanning the k-list back to front,
whose k-distance is minimal among the evictable k-list nodes; the chosen
node's removal decrements `curr_size` by one. -/
theorem c3_evict_policy (s : LRUKReplacer)
    (hsize : s.currSize = countEvictable s.defaultList + countEvictable s.kList)
    (hsorted : List.Pairwise (fun a b => b.kDist ≤ a.kDist) s.kList) :
    ((evict s).1 = none ↔ s.currSize = 0)
    ∧ (∀ n, s.defaultList.reverse.find? (fun m => m.evictable) = some n →
        (evict s).1 = some n.frameId
        ∧ (evict s).2.defaultList = (s.defaultList.reverse.eraseP (fun m => m.evictable)).reverse
        ∧ (evict s).2.kList = s.kList
        ∧ (evict s).2.currSize = s.currSize - 1)
    ∧ (s.defaultList.reverse.find? (fun m => m.evictable) = none →
        ∀ n, s.kList.reverse.find? (fun m => m.evictable) = some n →
          (evict s).1 = some n.frameId
          ∧ (evict s).2.kList = (s.kList.reverse.eraseP (fun m => m.evictable)).reverse
          ∧ (evict s).2.defaultList = s.defaultList
          ∧ (evict s).2.currSize = s.currSize - 1
          ∧ (∀ m ∈ s.kList, m.evictable = true → n.kDist ≤ m.kDist)) := by
  have hminlem : ∀ n, s.kList.reverse.find? (fun m => m.evictable) = some n →
      ∀ m ∈ s.kList, m.evictable = true → n.kDist ≤ m.kDist := by
    intro n hfind m hm hev
    have hsorted2 : List.Pairwise (fun a b => a.kDist ≤ b.kDist) s.kList.reverse := by
      rw [List.pairwise_reverse]
      exact hsorted
    exact find?_min_of_sorted _ _ _ hsorted2 hfind m (List.mem_reverse.mpr hm) hev
  rcases hfd : s.defaultList.reverse.find? (fun m => m.evictable) with _ | n
  · -- no evictable node in the default list
    have hcd : countEvictable s.defaultList = 0 := by
      rw [← countEvictable_reverse, countEvictable_eq_zero_iff]
      exact hfd
    have hrd : removeNode s.defaultList = none := by
      rw [removeNode, removeFirstEvictable_eq_none _ hfd]
    rcases hfk : s.kList.reverse.find? (fun m => m.evictable) with _ | n
    · -- no evictable node anywhere: curr_size must be 0 by the invariant
      have hck : countEvictable s.kList = 0 := by
        rw [← countEvictable_reverse, countEvictable_eq_zero_iff]
        exact hfk
      have hz : s.currSize = 0 := by omega
      refine ⟨by simp [evict, hz], ?_, ?_⟩
      · intro n hn; simp [hfd] at hn
      · intro _ n hn; simp [hfk] at hn
    · -- the k-list scan finds a node
      have hck : countEvictable s.kList ≠ 0 := by
        intro h
        rw [← countEvictable_reverse, countEvictable_eq_zero_iff] at h
        simp [h] at hfk
      have hz : s.currSize ≠ 0 := by omega
      have hkne : s.kList ≠ [] := by
        intro h; rw [h] at hfk; simp at hfk
      have hrk : removeNode s.kList =
          some (n.frameId, (s.kList.reverse.eraseP (fun m => m.evictable)).reverse) := by
        rw [removeNode, removeFirstEvictable_eq_some _ _ hfk]
      have hev : evict s = (some n.frameId,
          { s with kList := (s.kList.reverse.eraseP (fun m => m.evictable)).reverse,
                   currSize := s.currSize - 1 }) := by
        simp [evict, hz, hrd, hrk, hkne]
      refine ⟨by simp [hev, hz], ?_, ?_⟩
      · intro m hm; simp [hfd] at hm
      · intro _ m hm
        rw [hfk] at hm
        cases hm
        exact ⟨by simp [hev], by simp [hev], by simp [hev], by simp [hev], hminlem n hfk⟩
  · -- the default-list scan finds a node
    have hcd : countEvictable s.defaultList ≠ 0 := by
      intro h
      rw [← countEvictable_reverse, countEvictable_eq_zero_iff] at h
      simp [h] at hfd
    have hz : s.currSize ≠ 0 := by omega
    have hdne : s.defaultList ≠ [] := by
      intro h; rw [h] at hfd; simp at hfd
    have hrd : removeNode s.defaultList =
        some (n.frameId, (s.defaultList.reverse.eraseP (fun m => m.evictable)).reverse) := by
      rw [removeNode, removeFirstEvictable_eq_some _ _ hfd]
    have hev : evict s = (some n.frameId,
        { s with defaultList := (s.defaultList.reverse.eraseP (fun m => m.evictable)).reverse,
                 currSize := s.currSize - 1 }) := by
      simp [evict, hz, hrd, hdne]
    refine ⟨by simp [hev, hz], ?_, ?_⟩
    · intro m hm
      rw [hfd] at hm
      cases hm
      exact ⟨by simp [hev], by simp [hev], by simp [hev], by simp [hev]⟩
    · intro hm; rw [hfd] at hm; cases hm

/-- Witness for C3 at the concrete state c3State. -/
theorem c3_evict_policy_witness :
    (c3State.currSize = countEvictable c3State.defaultList + countEvictable c3State.kList
      ∧ List.Pairwise (fun a b => b.kDist ≤ a.kDist) c3State.kList)
    ∧ (((evict c3State).1 = none ↔ c3State.currSize = 0)
      ∧ (∀ n, c3State.defaultList.reverse.find? (fun m => m.evictable) = some n →
          (evict c3State).1 = some n.frameId
          ∧ (evict c3State).2.defaultList =
              (c3State.defaultList.reverse.eraseP (fun m => m.evictable)).reverse
          ∧ (evict c3State).2.kList = c3State.kList
          ∧ (evict c3State).2.currSize = c3State.currSize - 1)
      ∧ (c3State.defaultList.reverse.find? (fun m => m.evictable) = none →
          ∀ n, c3State.kList.reverse.find? (fun m => m.evictable) = some n →
            (evict c3State).1 = some n.frameId
            ∧ (evict c3State).2.kList =
                (c3State.kList.reverse.eraseP (fun m => m.evictable)).reverse
            ∧ (evict c3State).2.defaultList = c3State.defaultList
            ∧ (evict c3State).2.currSize = c3State.currSize - 1
            ∧ (∀ m ∈ c3State.kList, m.evictable = true → n.kDist ≤ m.kDist))) :=
  ⟨⟨by decide, by decide⟩, c3_evict_policy c3State (by decide) (by decide)⟩

theorem findNode_frameId (lst : List LRUKNode) (fid : Int) (n : LRUKNode)
    (h : findNode lst fid = some n) : n.frameId = fid := by
  have := List.find?_some h
  simpa using this

theorem findNode_setNodeEvictable (lst : List LRUKNode) (fid : Int) (b : Bool) :
    findNode (setNodeEvictable lst fid b) fid =
      (findNode lst fid).map (fun m => { m with evictable := b }) := by
  induction lst with
  | nil => rfl
  | cons a l ih =>
    by_cases ha : a.frameId = fid
    · simp [setNodeEvictable, findNode, List.find?_cons, ha] at ih ⊢
    · have hb : (a.frameId == fid) = false := by simp [ha]
      simp only [setNodeEvictable, List.map_cons, hb, if_neg, Bool.false_eq_true,
        not_false_eq_true, if_false] at ih ⊢
      simp [findNode, List.find?_cons, hb] at ih ⊢
      exact ih

theorem findNode_eraseNode_self (lst : List LRUKNode) (fid : Int) :
    findNode (eraseNode lst fid) fid = none := by
  rw [findNode, List.find?_eq_none]
  intro n hn
  have := (List.mem_filter.mp hn).2
  simpa using this

theorem findNode_insertKNode_self (lst : List LRUKNode) (n : LRUKNode) (fid : Int)
    (hn : n.frameId = fid) (h : findNode lst fid = none) :
    findNode (insertKNode n lst) fid = some n := by
  induction lst with
  | nil => simp [insertKNode, findNode, List.find?_cons, hn]
  | cons a l ih =>
    rw [findNode, List.find?_eq_none] at h
    have ha : (a.frameId == fid) = false := by
      have := h a (by simp)
      simpa using this
    have hl : findNode l fid = none := by
      rw [findNode, List.find?_eq_none]
      intro x hx
      exact h x (by simp [hx])
    by_cases hk : n.kDist < a.kDist
    · simp [insertKNode, hk, findNode, List.find?_cons, ha]
      exact ih hl
    · simp [insertKNode, hk, findNode, List.find?_cons, hn]

theorem findNode_map_replace (lst : List LRUKNode) (fid : Int) (node : LRUKNode)
    (hn : node.frameId = fid) (m : LRUKNode) (h : findNode lst fid = some m) :
    findNode (lst.map (fun x => if x.frameId == fid then node else x)) fid = some node := by
  induction lst with
  | nil => simp [findNode] at h
  | cons a l ih =>
    by_cases ha : a.frameId = fid
    · have hb : (a.frameId == fid) = true := by simp [ha]
      have hnb : (node.frameId == fid) = true := by simp [hn]
      simp [findNode, List.find?_cons, hb, hnb, ha]
    · have hb : (a.frameId == fid) = false := by simp [ha]
      rw [findNode, List.find?_cons, hb] at h
      simp only [List.map_cons, hb, Bool.false_eq_true, if_false]
      rw [findNode, List.find?_cons, hb]
      exact ih h

theorem trackedNode_setEvictable (s : LRUKReplacer) (fid : Int) (b : Bool) (n : LRUKNode)
    (h : trackedNode s fid = some n) :
    trackedNode (setEvictable s fid b) fid = some { n with evictable := b } := by
  rw [setEvictable, h]
  rcases hd : findNode s.defaultList fid with _ | d
  · have hk : findNode s.kList fid = some n := by
      rw [trackedNode, hd] at h
      simpa using h
    simp [trackedNode, findNode_setNodeEvictable, hd, hk, Option.orElse]
  · have hdn : d = n := by
      rw [trackedNode, hd] at h
      simpa using h
    subst hdn
    simp [trackedNode, findNode_setNodeEvictable, hd, Option.orElse]

theorem evictableFlag_setEvictable (s : LRUKReplacer) (fid : Int) (b : Bool) (n : LRUKNode)
    (h : trackedNode s fid = some n) :
    evictableFlag (setEvictable s fid b) fid = some b := by
  rw [evictableFlag, trackedNode_setEvictable s fid b n h]
  rfl

theorem trackedNode_recordAccess (s : LRUKReplacer) (fid : Int)
    (hle : fid ≤ (s.replacerSize : Int))
    (hclean : findNode s.defaultList fid = none ∨ findNode s.kList fid = none) :
    ∃ n, trackedNode (recordAccess s fid) fid = some n := by
  have hguard : ¬ fid > (s.replacerSize : Int) := by omega
  rcases hd : findNode s.defaultList fid with _ | d
  · rcases hk : findNode s.kList fid with _ | kn
    · -- unknown frame: a fresh node is pushed at the front of the default list
      have hwit : trackedNode (recordAccess s fid) fid =
          some { frameId := fid, history := [s.currentTimestamp], evictable := false,
                 kDist := 0 } := by
        simp only [recordAccess, hd, hk]
        rw [if_neg hguard]
        simp [trackedNode, findNode, List.find?_cons]
      exact ⟨_, hwit⟩
    · -- frame in the k-list: re-sorted insertion keeps it tracked
      have hwit : trackedNode (recordAccess s fid) fid =
          some ((kn.insertTimeStamp s.currentTimestamp s.k).updateKDistance
            s.currentTimestamp s.k) := by
        simp only [recordAccess, hd, hk]
        rw [if_neg hguard]
        simp only [trackedNode]
        rw [hd]
        exact findNode_insertKNode_self _ _ fid (by
          simp [LRUKNode.insertTimeStamp, LRUKNode.updateKDistance,
            findNode_frameId _ _ _ hk]) (findNode_eraseNode_self _ _)
      exact ⟨_, hwit⟩
  · -- frame in the default list
    have hfd : d.frameId = fid := findNode_frameId _ _ _ hd
    have hk : findNode s.kList fid = none := by
      rcases hclean with h | h
      · rw [hd] at h; cases h
      · exact h
    by_cases hfull : s.k ≤ (d.insertTimeStamp s.currentTimestamp s.k).history.length
    · -- promoted to the k-list
      have hwit : trackedNode (recordAccess s fid) fid =
          some ((d.insertTimeStamp s.currentTimestamp s.k).updateKDistance
            s.currentTimestamp s.k) := by
        simp only [recordAccess, hd, hk]
        rw [if_neg hguard]
        simp only [hfull, if_true, trackedNode, findNode_eraseNode_self, Option.none_orElse]
        exact findNode_insertKNode_self _ _ fid (by simp [LRUKNode.insertTimeStamp,
          LRUKNode.updateKDistance, hfd]) (by simpa using hk)
      exact ⟨_, hwit⟩
    · -- stays in place in the default list
      have hwit : trackedNode (recordAccess s fid) fid =
          some (d.insertTimeStamp s.currentTimestamp s.k) := by
        simp only [recordAccess, hd, hk]
        rw [if_neg hguard]
        simp only [hfull, if_false, trackedNode]
        rw [findNode_map_replace s.defaultList fid _
          (by simp [LRUKNode.insertTimeStamp, hfd]) d hd]
        rfl
      exact ⟨_, hwit⟩

theorem evictableFlag_record_set (s : LRUKReplacer) (fid : Int)
    (hle : fid ≤ (s.replacerSize : Int))
    (hclean : findNode s.defaultList fid = none ∨ findNode s.kList fid = none) :
    evictableFlag (setEvictable (recordAccess s fid) fid false) fid = some false := by
  obtain ⟨n, hn⟩ := trackedNode_recordAccess s fid hle hclean
  exact evictableFlag_setEvictable _ fid false n hn

theorem getD_set_self (l : List α) (i : Nat) (x d : α) (h : i < l.length) :
    (l.set i x).getD i d = x := by
  rw [List.getD_eq_getD_get?, List.get?_eq_getElem?, List.getElem?_set_eq_of_lt x h]
  rfl

theorem frameAt_setFrame (s : BufferPoolManager) (fid : Int) (fr : Frame)
    (h : fid.toNat < s.pages.length) : frameAt (setFrame s fid fr) fid = fr := by
  simp only [frameAt, setFrame]
  exact getD_set_self _ _ _ _ h

/-- Claim C7: `UnpinPage(page_id, is_dirty)` returns false and changes no
state when the page is not resident or its pin count is already zero
(the source also rejects a negative count); otherwise it returns true,
decrements the pin count, ORs the dirty flag with `is_dirty` (a dirty frame
never becomes clean through Unpin), touches nothing else, and marks the
frame evictable exactly when the pin count reaches zero. -/
theorem c7_unpinPage_spec (s : BufferPoolManager) (pid : Int) (isDirty : Bool) :
    (tableLookup s.pageTable pid = none → unpinPage s pid isDirty = (false, s))
    ∧ (∀ fid, tableLookup s.pageTable pid = some fid → (frameAt s fid).pinCount ≤ 0 →
        unpinPage s pid isDirty = (false, s))
    ∧ (∀ fid, tableLookup s.pageTable pid = some fid →
        fid.toNat < s.pages.length → 0 < (frameAt s fid).pinCount →
        (unpinPage s pid isDirty).1 = true
        ∧ frameAt (unpinPage s pid isDirty).2 fid =
            { pageId := (frameAt s fid).pageId,
              pinCount := (frameAt s fid).pinCount - 1,
              isDirty := isDirty || (frameAt s fid).isDirty,
              data := (frameAt s fid).data }
        ∧ (unpinPage s pid isDirty).2.pageTable = s.pageTable
        ∧ (unpinPage s pid isDirty).2.freeList = s.freeList
        ∧ (unpinPage s pid isDirty).2.disk = s.disk
        ∧ (unpinPage s pid isDirty).2.ioLog = s.ioLog
        ∧ ((frameAt s fid).pinCount - 1 ≠ 0 →
            (unpinPage s pid isDirty).2.replacer = s.replacer)
        ∧ ((frameAt s fid).pinCount - 1 = 0 → ∀ n, trackedNode s.replacer fid = some n →
            evictableFlag (unpinPage s pid isDirty).2.replacer fid = some true)) := by
  refine ⟨?_, ?_, ?_⟩
  · intro hmiss
    simp [unpinPage, hmiss]
  · intro fid hfid hpin
    simp only [unpinPage, hfid]
    rw [if_pos hpin]
  · intro fid hfid hlen hpin
    have hpin2 : ¬ (frameAt s fid).pinCount ≤ 0 := by omega
    simp only [unpinPage, hfid, if_neg hpin2]
    by_cases hz : (frameAt s fid).pinCount - 1 = 0
    · rw [if_pos hz]
      refine ⟨by simp, ?_, by simp [setFrame], by simp [setFrame], by simp [setFrame],
        by simp [setFrame], ?_, ?_⟩
      · exact frameAt_setFrame _ _ _ hlen
      · intro h; exact absurd hz h
      · intro _ n hn
        exact evictableFlag_setEvictable _ fid true n hn
    · rw [if_neg hz]
      refine ⟨by simp, ?_, by simp [setFrame], by simp [setFrame], by simp [setFrame],
        by simp [setFrame], ?_, ?_⟩
      · exact frameAt_setFrame _ _ _ hlen
      · intro _; rfl
      · intro h; exact absurd h hz

/-- Witness for C7 at the pool c67Pool, unpinning page 11 (frame 1, pin
count 1) with is_dirty = true. -/
theorem c7_unpinPage_spec_witness :
    (tableLookup c67Pool.pageTable 11 = some 1
      ∧ (1 : Int).toNat < c67Pool.pages.length
      ∧ 0 < (frameAt c67Pool 1).pinCount)
    ∧ ((unpinPage c67Pool 11 true).1 = true
      ∧ frameAt (unpinPage c67Pool 11 true).2 1 =
          { pageId := (frameAt c67Pool 1).pageId,
            pinCount := (frameAt c67Pool 1).pinCount - 1,
            isDirty := true || (frameAt c67Pool 1).isDirty,
            data := (frameAt c67Pool 1).data }
      ∧ (unpinPage c67Pool 11 true).2.pageTable = c67Pool.pageTable
      ∧ (unpinPage c67Pool 11 true).2.freeList = c67Pool.freeList
      ∧ (unpinPage c67Pool 11 true).2.disk = c67Pool.disk
      ∧ (unpinPage c67Pool 11 true).2.ioLog = c67Pool.ioLog
      ∧ ((frameAt c67Pool 1).pinCount - 1 ≠ 0 →
          (unpinPage c67Pool 11 true).2.replacer = c67Pool.replacer)
      ∧ ((frameAt c67Pool 1).pinCount - 1 = 0 →
          ∀ n, trackedNode c67Pool.replacer 1 = some n →
            evictableFlag (unpinPage c67Pool 11 true).2.replacer 1 = some true)) :=
  ⟨⟨by decide, by decide, by decide⟩,
    (c7_unpinPage_spec c67Pool 11 true).2.2 1 (by decide) (by decide) (by decide)⟩

/-- Claim C10: with the free list empty and no evictable frame, a
`FetchPage` of a non-resident page and a `NewPage` both fail atomically:
they return none and the entire buffer pool state - page table, free list,
frames, replacer, allocation counter, disk image and the log of disk
manager calls - is exactly as before. -/
theorem c10_capacity_failure_atomic (s : BufferPoolManager) (pid : Int)
    (hfree : s.freeList = []) (hsz : s.replacer.currSize = 0)
    (hmiss : tableLookup s.pageTable pid = none) :
    fetchPage s pid = (none, s) ∧ newPage s = (none, s)
    ∧ (fetchPage s pid).2.ioLog = s.ioLog ∧ (newPage s).2.ioLog = s.ioLog := by
  have hguard : ¬ (s.freeList ≠ [] ∨ 0 < s.replacer.currSize) := by
    simp [hfree, hsz]
  have h1 : fetchPage s pid = (none, s) := by
    simp only [fetchPage, hmiss]
    rw [if_neg hguard]
  have h2 : newPage s = (none, s) := by
    simp only [newPage]
    rw [if_neg hguard]
  exact ⟨h1, h2, by rw [h1], by rw [h2]⟩

/-- Witness for C10 at the fully pinned pool c10Pool and page 12. -/
theorem c10_capacity_failure_atomic_witness :
    (c10Pool.freeList = [] ∧ c10Pool.replacer.currSize = 0
      ∧ tableLookup c10Pool.pageTable 12 = none)
    ∧ (fetchPage c10Pool 12 = (none, c10Pool) ∧ newPage c10Pool = (none, c10Pool)
      ∧ (fetchPage c10Pool 12).2.ioLog = c10Pool.ioLog
      ∧ (newPage c10Pool).2.ioLog = c10Pool.ioLog) :=
  ⟨⟨by decide, by decide, by decide⟩,
    c10_capacity_failure_atomic c10Pool 12 (by decide) (by decide) (by decide)⟩

theorem eraseP_no_frameId (l : List LRUKNode) (n : LRUKNode)
    (hpw : l.Pairwise (fun a b => a.frameId ≠ b.frameId))
    (hfind : l.find? (fun m => m.evictable) = some n) :
    ∀ m ∈ l.eraseP (fun m => m.evictable), m.frameId ≠ n.frameId := by
  induction l with
  | nil => simp at hfind
  | cons a l ih =>
    rw [List.pairwise_cons] at hpw
    rw [List.find?_cons] at hfind
    cases ha : a.evictable with
    | true =>
      simp only [ha] at hfind
      cases hfind
      rw [List.eraseP_cons_of_pos ha]
      intro m hm
      exact fun he => (hpw.1 m hm) he.symm
    | false =>
      simp only [ha] at hfind
      rw [List.eraseP_cons_of_neg (by simp [ha])]
      intro m hm
      rcases List.mem_cons.mp hm with rfl | hm
      · exact hpw.1 n (List.mem_of_find?_eq_some hfind)
      · exact ih hpw.2 hfind m hm

theorem findNode_eq_none_of_no_frameId (l : List LRUKNode) (fid : Int)
    (h : ∀ m ∈ l, m.frameId ≠ fid) : findNode l fid = none := by
  rw [findNode, List.find?_eq_none]
  intro m hm hbeq
  exact h m hm (by simpa using hbeq)

theorem hclean_of_pairwise (dl kl : List LRUKNode) (fid : Int)
    (huniq : (dl ++ kl).Pairwise (fun a b => a.frameId ≠ b.frameId)) :
    findNode dl fid = none ∨ findNode kl fid = none := by
  by_cases hd : findNode dl fid = none
  · exact Or.inl hd
  · right
    rcases hdd : findNode dl fid with _ | d
    · exact absurd hdd hd
    · have hdm : d ∈ dl := List.mem_of_find?_eq_some hdd
      have hdf : d.frameId = fid := findNode_frameId _ _ _ hdd
      refine findNode_eq_none_of_no_frameId _ _ ?_
      intro m hm hmf
      exact (List.pairwise_append.mp huniq).2.2 d hdm m hm (by rw [hdf, hmf])

/-- Characterisation of a successful `Evict` on a state whose `curr_size`
matches the evictable counts and whose frame ids are unique: it returns the
frame id of some tracked node, decrements `curr_size`, and afterwards the
evicted frame id is tracked by neither list. -/
theorem evict_clean (s : LRUKReplacer)
    (hsize : s.currSize = countEvictable s.defaultList + countEvictable s.kList)
    (huniq : (s.defaultList ++ s.kList).Pairwise (fun a b => a.frameId ≠ b.frameId))
    (hz : s.currSize ≠ 0) :
    ∃ n rep, evict s = (some n.frameId, rep)
      ∧ (n ∈ s.defaultList ∨ n ∈ s.kList)
      ∧ rep.currSize = s.currSize - 1
      ∧ rep.currentTimestamp = s.currentTimestamp
      ∧ rep.replacerSize = s.replacerSize
      ∧ rep.k = s.k
      ∧ findNode rep.defaultList n.frameId = none
      ∧ findNode rep.kList n.frameId = none := by
  obtain ⟨hdpw, hkpw, hcross⟩ := List.pairwise_append.mp huniq
  rcases hfd : s.defaultList.reverse.find? (fun m => m.evictable) with _ | n
  · -- no evictable node in the default list: the k-list scan must succeed
    have hcd : countEvictable s.defaultList = 0 := by
      rw [← countEvictable_reverse, countEvictable_eq_zero_iff]
      exact hfd
    have hrd : removeNode s.defaultList = none := by
      rw [removeNode, removeFirstEvictable_eq_none _ hfd]
    rcases hfk : s.kList.reverse.find? (fun m => m.evictable) with _ | n
    · exfalso
      have hck : countEvictable s.kList = 0 := by
        rw [← countEvictable_reverse, countEvictable_eq_zero_iff]
        exact hfk
      omega
    · have hmem : n ∈ s.kList := List.mem_reverse.mp (List.mem_of_find?_eq_some hfk)
      have hkne : s.kList ≠ [] := by
        intro h; rw [h] at hfk; simp at hfk
      have hrk : removeNode s.kList =
          some (n.frameId, (s.kList.reverse.eraseP (fun m => m.evictable)).reverse) := by
        rw [removeNode, removeFirstEvictable_eq_some _ _ hfk]
      have hev : evict s = (some n.frameId,
          { s with kList := (s.kList.reverse.eraseP (fun m => m.evictable)).reverse,
                   currSize := s.currSize - 1 }) := by
        simp [evict, hz, hrd, hrk, hkne]
      refine ⟨n, _, hev, Or.inr hmem, rfl, rfl, rfl, rfl, ?_, ?_⟩
      · -- the default list is untouched and never tracked this frame id
        refine findNode_eq_none_of_no_frameId _ _ ?_
        intro m hm hmf
        exact hcross m hm n hmem hmf
      · -- the k-list lost its only node with this frame id
        refine findNode_eq_none_of_no_frameId _ _ ?_
        intro m hm
        have hkpw2 : s.kList.reverse.Pairwise (fun a b => a.frameId ≠ b.frameId) := by
          rw [List.pairwise_reverse]
          exact hkpw.imp (fun h => h.symm)
        exact eraseP_no_frameId _ _ hkpw2 hfk m (by simpa using hm)
  · -- the default-list scan succeeds
    have hmem : n ∈ s.defaultList := List.mem_reverse.mp (List.mem_of_find?_eq_some hfd)
    have hdne : s.defaultList ≠ [] := by
      intro h; rw [h] at hfd; simp at hfd
    have hrd : removeNode s.defaultList =
        some (n.frameId, (s.defaultList.reverse.eraseP (fun m => m.evictable)).reverse) := by
      rw [removeNode, removeFirstEvictable_eq_some _ _ hfd]
    have hev : evict s = (some n.frameId,
        { s with
            defaultList := (s.defaultList.reverse.eraseP (fun m => m.evictable)).reverse,
            currSize := s.currSize - 1 }) := by
      simp [evict, hz, hrd, hdne]
    refine ⟨n, _, hev, Or.inl hmem, rfl, rfl, rfl, rfl, ?_, ?_⟩
    · refine findNode_eq_none_of_no_frameId _ _ ?_
      intro m hm
      have hdpw2 : s.defaultList.reverse.Pairwise (fun a b => a.frameId ≠ b.frameId) := by
        rw [List.pairwise_reverse]
        exact hdpw.imp (fun h => h.symm)
      exact eraseP_no_frameId _ _ hdpw2 hfd m (by simpa using hm)
    · refine findNode_eq_none_of_no_frameId _ _ ?_
      intro m hm hmf
      exact hcross n hmem m hm hmf.symm

/-- Claim C6: `NewPage` takes a frame from the free list first, otherwise
evicts through the replacer; a dirty victim is first written to disk at its
current page id, then the old page id is erased from the page table, the
frame memory reset, and `DeallocatePage` called on the old id; a fresh page
id allocated from the monotone counter is installed with pin count 1, the
dirty flag clear, an access recorded and the frame marked non-evictable;
`NewPage` returns none exactly when the free list is empty and no frame is
evictable, i.e. when all frames are pinned. -/
theorem c6_newPage_spec (s : BufferPoolManager)
    (hrs : s.replacer.replacerSize = s.poolSize)
    (hlen : s.pages.length = s.poolSize)
    (hfree : ∀ f ∈ s.freeList, 0 ≤ f ∧ f.toNat < s.poolSize)
    (hnodes : ∀ n ∈ s.replacer.defaultList ++ s.replacer.kList,
        0 ≤ n.frameId ∧ n.frameId.toNat < s.poolSize)
    (huniq : (s.replacer.defaultList ++ s.replacer.kList).Pairwise
        (fun a b => a.frameId ≠ b.frameId))
    (hsize : s.replacer.currSize =
        countEvictable s.replacer.defaultList + countEvictable s.replacer.kList) :
    ((newPage s).1 = none ↔ (s.freeList = [] ∧ s.replacer.currSize = 0))
    ∧ (∀ f rest, s.freeList = f :: rest →
        (newPage s).1 = some s.nextPageId
        ∧ (newPage s).2.freeList = rest
        ∧ (newPage s).2.nextPageId = s.nextPageId + 1
        ∧ (newPage s).2.pageTable = tableInsert s.pageTable s.nextPageId f
        ∧ frameAt (newPage s).2 f =
            { pageId := s.nextPageId, pinCount := 1, isDirty := false,
              data := (frameAt s f).data }
        ∧ (newPage s).2.disk = s.disk
        ∧ (newPage s).2.ioLog = s.ioLog
        ∧ evictableFlag (newPage s).2.replacer f = some false)
    ∧ (s.freeList = [] → s.replacer.currSize ≠ 0 →
        ∃ fid, (evict s.replacer).1 = some fid ∧ 0 ≤ fid ∧ fid.toNat < s.poolSize
          ∧ (newPage s).1 = some s.nextPageId
          ∧ (newPage s).2.nextPageId = s.nextPageId + 1
          ∧ (newPage s).2.pageTable =
              tableInsert (tableErase s.pageTable (frameAt s fid).pageId) s.nextPageId fid
          ∧ frameAt (newPage s).2 fid =
              { pageId := s.nextPageId, pinCount := 1, isDirty := false, data := 0 }
          ∧ ((frameAt s fid).isDirty = true →
              (newPage s).2.ioLog = s.ioLog
                  ++ [DiskOp.writePage (frameAt s fid).pageId (frameAt s fid).data,
                      DiskOp.deallocatePage (frameAt s fid).pageId]
              ∧ (newPage s).2.disk =
                  diskWrite s.disk (frameAt s fid).pageId (frameAt s fid).data)
          ∧ ((frameAt s fid).isDirty = false →
              (newPage s).2.ioLog = s.ioLog ++ [DiskOp.deallocatePage (frameAt s fid).pageId]
              ∧ (newPage s).2.disk = s.disk)
          ∧ evictableFlag (newPage s).2.replacer fid = some false) := by
  refine ⟨?_, ?_, ?_⟩
  · -- none exactly on empty free list with nothing evictable
    rcases hfl : s.freeList with _ | ⟨f, rest⟩
    · by_cases hcz : s.replacer.currSize = 0
      · have hguard : ¬ (s.freeList ≠ [] ∨ 0 < s.replacer.currSize) := by simp [hfl, hcz]
        have hnew : newPage s = (none, s) := by
          simp only [newPage]
          rw [if_neg hguard]
        simp [hnew, hfl, hcz]
      · have hguard : (s.freeList ≠ [] ∨ 0 < s.replacer.currSize) := by right; omega
        have hsome : ∃ v st, newPage s = (some v, st) := by
          simp only [newPage]
          rw [if_pos hguard]
          exact ⟨_, _, rfl⟩
        obtain ⟨v, st, hnew⟩ := hsome
        simp [hnew, hcz]
    · have hguard : (s.freeList ≠ [] ∨ 0 < s.replacer.currSize) := by
        left; rw [hfl]; simp
      have hsome : ∃ v st, newPage s = (some v, st) := by
        simp only [newPage]
        rw [if_pos hguard]
        exact ⟨_, _, rfl⟩
      obtain ⟨v, st, hnew⟩ := hsome
      simp [hnew, hfl]
  · -- free-list path
    intro f rest hfl
    have hmem := hfree f (by rw [hfl]; exact List.mem_cons_self _ _)
    have hbound : f.toNat < s.pages.length := by omega
    have hle : f ≤ (s.replacer.replacerSize : Int) := by
      rw [hrs]; omega
    simp only [newPage, acquireFrame, hfl]
    split
    case isFalse h => exact absurd (Or.inl (by simp)) h
    case isTrue h =>
      refine ⟨by simp [setFrame], by simp [setFrame], by simp [setFrame],
        by simp [setFrame, frameAt], ?_, by simp [setFrame], by simp [setFrame], ?_⟩
      · simp only [frameAt, setFrame]
        rw [getD_set_self _ _ _ _ (by simpa using hbound)]
        try simp
      · exact evictableFlag_record_set s.replacer f hle
          (hclean_of_pairwise _ _ f huniq)
  · -- eviction path
    intro hfl hz
    obtain ⟨n, rep, hev, hmemOr, hcs, hts, hrsz, hkk, hnd, hnk⟩ :=
      evict_clean s.replacer hsize huniq hz
    have hmem := hnodes n (List.mem_append.mpr hmemOr)
    have hbound : n.frameId.toNat < s.pages.length := by omega
    have hle : n.frameId ≤ (rep.replacerSize : Int) := by
      rw [hrsz, hrs]; omega
    refine ⟨n.frameId, by rw [hev], hmem.1, hmem.2, ?_⟩
    simp only [newPage, acquireFrame, hfl, hev, Option.getD_some]
    split
    case isFalse h => exact absurd (Or.inr (by omega)) h
    case isTrue hg =>
      split
      case isTrue hdirty =>
        have hd : (frameAt s n.frameId).isDirty = true := hdirty
        refine ⟨?_, ?_, ?_, ?_, ?_, ?_, ?_⟩
        · simp [setFrame]
        · simp [setFrame]
        · simp [setFrame, frameAt]
        · simp only [frameAt, setFrame]
          rw [getD_set_self _ _ _ _ (by simpa using hbound)]
          try rw [getD_set_self _ _ _ _ (by simpa using hbound)]
          try simp
        · intro _
          exact ⟨by simp [setFrame, frameAt, List.append_assoc], by simp [setFrame, frameAt]⟩
        · intro hcl
          exact absurd hd (by simp [hcl])
        · exact evictableFlag_record_set rep n.frameId hle (Or.inl hnd)
      case isFalse hdirty =>
        have hd : (frameAt s n.frameId).isDirty = false := by
          have h2 : ¬ (frameAt s n.frameId).isDirty = true := hdirty
          simpa using h2
        refine ⟨?_, ?_, ?_, ?_, ?_, ?_, ?_⟩
        · simp [setFrame]
        · simp [setFrame]
        · simp [setFrame, frameAt]
        · simp only [frameAt, setFrame]
          rw [getD_set_self _ _ _ _ (by simpa using hbound)]
          try rw [getD_set_self _ _ _ _ (by simpa using hbound)]
          try simp
        · intro hdt
          exact absurd hdt (by simp [hd])
        · intro _
          exact ⟨by simp [setFrame, frameAt], by simp [setFrame, frameAt]⟩
        · exact evictableFlag_record_set rep n.frameId hle (Or.inl hnd)

/-- Witness for C6 at the pool c6Pool (empty free list, frame 1 evictable
and dirty). -/
theorem c6_newPage_spec_witness :
    (c6Pool.replacer.replacerSize = c6Pool.poolSize
      ∧ c6Pool.pages.length = c6Pool.poolSize
      ∧ (∀ f ∈ c6Pool.freeList, 0 ≤ f ∧ f.toNat < c6Pool.poolSize)
      ∧ (∀ n ∈ c6Pool.replacer.defaultList ++ c6Pool.replacer.kList,
          0 ≤ n.frameId ∧ n.frameId.toNat < c6Pool.poolSize)
      ∧ (c6Pool.replacer.defaultList ++ c6Pool.replacer.kList).Pairwise
          (fun a b => a.frameId ≠ b.frameId)
      ∧ c6Pool.replacer.currSize =
          countEvictable c6Pool.replacer.defaultList + countEvictable c6Pool.replacer.kList)
    ∧ (((newPage c6Pool).1 = none ↔ (c6Pool.freeList = [] ∧ c6Pool.replacer.currSize = 0))
      ∧ (∀ f rest, c6Pool.freeList = f :: rest →
          (newPage c6Pool).1 = some c6Pool.nextPageId
          ∧ (newPage c6Pool).2.freeList = rest
          ∧ (newPage c6Pool).2.nextPageId = c6Pool.nextPageId + 1
          ∧ (newPage c6Pool).2.pageTable = tableInsert c6Pool.pageTable c6Pool.nextPageId f
          ∧ frameAt (newPage c6Pool).2 f =
              { pageId := c6Pool.nextPageId, pinCount := 1, isDirty := false,
                data := (frameAt c6Pool f).data }
          ∧ (newPage c6Pool).2.disk = c6Pool.disk
          ∧ (newPage c6Pool).2.ioLog = c6Pool.ioLog
          ∧ evictableFlag (newPage c6Pool).2.replacer f = some false)
      ∧ (c6Pool.freeList = [] → c6Pool.replacer.currSize ≠ 0 →
          ∃ fid, (evict c6Pool.replacer).1 = some fid ∧ 0 ≤ fid
            ∧ fid.toNat < c6Pool.poolSize
            ∧ (newPage c6Pool).1 = some c6Pool.nextPageId
            ∧ (newPage c6Pool).2.nextPageId = c6Pool.nextPageId + 1
            ∧ (newPage c6Pool).2.pageTable =
                tableInsert (tableErase c6Pool.pageTable (frameAt c6Pool fid).pageId)
                  c6Pool.nextPageId fid
            ∧ frameAt (newPage c6Pool).2 fid =
                { pageId := c6Pool.nextPageId, pinCount := 1, isDirty := false, data := 0 }
            ∧ ((frameAt c6Pool fid).isDirty = true →
                (newPage c6Pool).2.ioLog = c6Pool.ioLog
                    ++ [DiskOp.writePage (frameAt c6Pool fid).pageId (frameAt c6Pool fid).data,
                        DiskOp.deallocatePage (frameAt c6Pool fid).pageId]
                ∧ (newPage c6Pool).2.disk =
                    diskWrite c6Pool.disk (frameAt c6Pool fid).pageId (frameAt c6Pool fid).data)
            ∧ ((frameAt c6Pool fid).isDirty = false →
                (newPage c6Pool).2.ioLog =
                    c6Pool.ioLog ++ [DiskOp.deallocatePage (frameAt c6Pool fid).pageId]
                ∧ (newPage c6Pool).2.disk = c6Pool.disk)
            ∧ evictableFlag (newPage c6Pool).2.replacer fid = some false)) :=
  ⟨⟨by decide, by decide, by decide, by decide, by decide, by decide⟩,
    c6_newPage_spec c6Pool (by decide) (by decide) (by decide) (by decide) (by decide)
      (by decide)⟩

/-- Claim C8: on a valid leaf position, `operator++` advances within the
leaf when not at the last entry, follows `next_page_id` to slot 0 of the
next leaf from the last entry, and transitions to the end sentinel
`(INVALID, -1)` from the last entry of the rightmost leaf; `IsEnd()` holds
exactly on the last entry of a leaf with no successor. -/
theorem c8_iterator_advance (t : BPlusTree) (it : IndexIterator)
    (entries : List (Int × Int)) (next parent : Int) (mx : Nat)
    (hpage : getPage t it.curPageId = some (.leaf entries next parent mx))
    (hvalid : it.curPageId ≠ -1)
    (hlo : 0 ≤ it.index) (hhi : it.index < (entries.length : Int)) :
    (iterIsEnd t it = true ↔ (next = -1 ∧ it.index = (entries.length : Int) - 1))
    ∧ (it.index < (entries.length : Int) - 1 →
        iterNext t it =
          { curPageId := it.curPageId, index := it.index + 1,
            entry := entries.getD (it.index + 1).toNat (0, 0) })
    ∧ (it.index = (entries.length : Int) - 1 → next = -1 →
        iterNext t it = { curPageId := -1, index := -1, entry := it.entry })
    ∧ (it.index = (entries.length : Int) - 1 → next ≠ -1 →
        ∀ nEntries nn np nm, getPage t next = some (.leaf nEntries nn np nm) →
          iterNext t it = { curPageId := next, index := 0, entry := nEntries.getD 0 (0, 0) }) := by
  have hend : iterIsEnd t it =
      decide (next = -1 ∧ it.index = (entries.length : Int) - 1) := by
    simp [iterIsEnd, hpage]
  refine ⟨?_, ?_, ?_, ?_⟩
  · rw [hend]
    simp
  · intro hlt
    have hne : iterIsEnd t it = false := by
      rw [hend]
      simp only [decide_eq_false_iff_not]
      intro h
      omega
    simp only [iterNext, if_neg hvalid, hne, Bool.false_eq_true, if_false, hpage]
    rw [if_pos hlt]
  · intro hlastidx hnl
    have he : iterIsEnd t it = true := by
      rw [hend]
      simp [hnl, hlastidx]
    simp [iterNext, if_neg hvalid, he]
  · intro hlastidx hnl nEntries nn np nm hnpage
    have hne : iterIsEnd t it = false := by
      rw [hend]
      simp [hnl]
    simp only [iterNext, if_neg hvalid, hne, Bool.false_eq_true, if_false, hpage]
    rw [if_neg (by omega), hnpage]

/-- Witness for C8 at the S3 tree, positioned on the last entry of the left
leaf (page 0, index 1), whose successor is leaf page 1. -/
theorem c8_iterator_advance_witness :
    (getPage treeS3 (0 : Int) = some (.leaf [(1, 1), (2, 2)] 1 2 4)
      ∧ (0 : Int) ≠ -1 ∧ (0 : Int) ≤ 1 ∧ (1 : Int) < 2)
    ∧ ((iterIsEnd treeS3 { curPageId := 0, index := 1, entry := (2, 2) } = true
        ↔ ((1 : Int) = -1
            ∧ (1 : Int) = (([(1, 1), (2, 2)] : List (Int × Int)).length : Int) - 1))
      ∧ ((1 : Int) < (([(1, 1), (2, 2)] : List (Int × Int)).length : Int) - 1 →
          iterNext treeS3 { curPageId := 0, index := 1, entry := (2, 2) } =
            { curPageId := 0, index := 1 + 1,
              entry := ([(1, 1), (2, 2)] : List (Int × Int)).getD ((1 : Int) + 1).toNat (0, 0) })
      ∧ ((1 : Int) = (([(1, 1), (2, 2)] : List (Int × Int)).length : Int) - 1 →
          (1 : Int) = -1 →
          iterNext treeS3 { curPageId := 0, index := 1, entry := (2, 2) } =
            { curPageId := -1, index := -1, entry := (2, 2) })
      ∧ ((1 : Int) = (([(1, 1), (2, 2)] : List (Int × Int)).length : Int) - 1 →
          (1 : Int) ≠ -1 →
          ∀ nEntries nn np nm, getPage treeS3 (1 : Int) = some (.leaf nEntries nn np nm) →
            iterNext treeS3 { curPageId := 0, index := 1, entry := (2, 2) } =
              { curPageId := 1, index := 0, entry := nEntries.getD 0 (0, 0) })) :=
  ⟨⟨by decide, by decide, by decide, by decide⟩,
    c8_iterator_advance treeS3 { curPageId := 0, index := 1, entry := (2, 2) }
      [(1, 1), (2, 2)] 1 2 4 (by decide) (by decide) (by decide) (by decide)⟩

theorem partitionPoint_finds_dup (entries : List (Int × Int)) (key : Int)
    (hs : List.Pairwise (fun a b => a.1 < b.1) entries)
    (hmem : key ∈ entries.map Prod.fst) :
    ∃ e, entries.get? (partitionPoint (fun e => decide (e.1 < key)) entries) = some e
      ∧ e.1 = key := by
  induction entries with
  | nil => simp at hmem
  | cons e0 rest ih =>
    rw [List.pairwise_cons] at hs
    rw [List.map_cons, List.mem_cons] at hmem
    by_cases h0 : e0.1 < key
    · have hmem2 : key ∈ rest.map Prod.fst := by
        rcases hmem with h | h
        · omega
        · exact h
      obtain ⟨e, he, hek⟩ := ih hs.2 hmem2
      refine ⟨e, ?_, hek⟩
      simp only [partitionPoint, decide_eq_true_eq]
      rw [if_pos h0]
      simpa using he
    · refine ⟨e0, ?_, ?_⟩
      · simp only [partitionPoint, decide_eq_true_eq]
        rw [if_neg h0]
        rfl
      · rcases hmem with h | h
        · omega
        · exfalso
          obtain ⟨b, hb, hbk⟩ := List.mem_map.mp h
          have := hs.1 b hb
          omega

theorem leafInsert_duplicate (entries : List (Int × Int)) (key val : Int)
    (hs : List.Pairwise (fun a b => a.1 < b.1) entries)
    (hmem : key ∈ entries.map Prod.fst) : leafInsert entries key val = none := by
  obtain ⟨e, he, hek⟩ := partitionPoint_finds_dup entries key hs hmem
  simp only [leafInsert]
  rw [he]
  simp [hek]

/-- Claim C5: inserting a key that is already present in the tree (the
search descent reaches a leaf whose sorted entries contain the key) returns
false and leaves the whole tree state - header root id, every page and the
allocation counter - unchanged, on the fast path and on the split path
alike. -/
theorem c5_duplicate_insert_unchanged (t : BPlusTree) (key val : Int) (fuel : Nat)
    (stack : List Int) (idxMap : List (Int × Int)) (leafPid : Int)
    (entries : List (Int × Int)) (next parent : Int) (mx : Nat)
    (hroot : t.rootPageId ≠ -1)
    (hpath : findLeafPath t key fuel t.rootPageId [] [] = some (stack, idxMap, leafPid))
    (hleaf : getPage t leafPid = some (.leaf entries next parent mx))
    (hs : List.Pairwise (fun a b => a.1 < b.1) entries)
    (hmem : key ∈ entries.map Prod.fst) :
    insertTree t key val fuel = (false, t) := by
  have hdup := leafInsert_duplicate entries key val hs hmem
  simp only [insertTree]
  rw [if_neg hroot, hpath]
  simp only [hleaf, hdup]
  simp

/-- Witness for C5 at the S3 tree and the already present key 3. -/
theorem c5_duplicate_insert_unchanged_witness :
    (treeS3.rootPageId ≠ -1
      ∧ findLeafPath treeS3 3 20 treeS3.rootPageId [] [] = some ([2], [(1, 1)], 1)
      ∧ getPage treeS3 1 = some (.leaf [(3, 3), (4, 4), (5, 5)] (-1) 2 4)
      ∧ List.Pairwise (fun a b => a.1 < b.1) ([(3, 3), (4, 4), (5, 5)] : List (Int × Int))
      ∧ (3 : Int) ∈ ([(3, 3), (4, 4), (5, 5)] : List (Int × Int)).map Prod.fst)
    ∧ insertTree treeS3 3 99 20 = (false, treeS3) :=
  ⟨⟨by decide, by decide, by decide, by decide, by decide⟩,
    c5_duplicate_insert_unchanged treeS3 3 99 20 [2] [(1, 1)] 1
      [(3, 3), (4, 4), (5, 5)] (-1) 2 4
      (by decide) (by decide) (by decide) (by decide) (by decide)⟩

theorem setPage_rootPageId (t : BPlusTree) (p : Int) (pg : BTPage) :
    (setPage t p pg).rootPageId = t.rootPageId := rfl

/-- Claim C1: after a successful delete from a non-root leaf whose new size
is below the code's rebalance threshold (`GetSize() < GetMaxSize()`),
`DeleteEntry` rebalances with the sibling found through the parent slot
next to the leaf's - the left sibling when the leaf is the parent's last
entry, the right sibling otherwise; when the combined size is below the
left page's max_size, the right page's entries are appended to the left
page, the left page's next_page_id becomes the right page's next_page_id,
and the separating (up_key, up_value) entry is deleted recursively from the
parent via `DeleteInternalEntry`; concretely, from the S3 state, deleting 5
then 4 leaves the single leaf [1, 2, 3] and the header's root points to
it. -/
theorem c1_deleteEntry_merge (key val curPid : Int) (fuel : Nat) (t : BPlusTree)
    (stack : List Int) (idxMap : List (Int × Int))
    (entries ent : List (Int × Int)) (next parent : Int) (mx : Nat)
    (parentPid : Int) (pentries : List (Int × Int)) (pparent : Int) (pmax : Nat)
    (idxInParent : Int)
    (hcur : getPage t curPid = some (.leaf entries next parent mx))
    (hdel : leafDelete entries key val = some ent)
    (hroot : curPid ≠ t.rootPageId)
    (hunder : (ent.length : Int) < (mx : Int))
    (hstack : stack.getLast? = some parentPid)
    (hidx : tableLookup idxMap curPid = some idxInParent)
    (hparent : getPage t parentPid = some (.internal pentries pparent pmax))
    (hpar_ne : parentPid ≠ curPid) :
    (idxInParent = (pentries.length : Int) - 1 →
      ∀ sEntries sNext sParent sMx,
        getPage t (pentries.getD (idxInParent - 1).toNat (0, 0)).2 =
            some (.leaf sEntries sNext sParent sMx) →
        (pentries.getD (idxInParent - 1).toNat (0, 0)).2 ≠ curPid →
        sEntries.length + ent.length < sMx →
        deleteEntry key val curPid fuel t stack idxMap =
          deleteInternalEntry (pentries.getD idxInParent.toNat (0, 0)).1 curPid parentPid
            fuel
            (setPage (setPage t curPid (.leaf ent next parent mx))
              (pentries.getD (idxInParent - 1).toNat (0, 0)).2
              (.leaf (sEntries ++ ent) next sParent sMx))
            stack.dropLast idxMap)
    ∧ (idxInParent ≠ (pentries.length : Int) - 1 →
      ∀ sEntries sNext sParent sMx,
        getPage t (pentries.getD (idxInParent + 1).toNat (0, 0)).2 =
            some (.leaf sEntries sNext sParent sMx) →
        (pentries.getD (idxInParent + 1).toNat (0, 0)).2 ≠ curPid →
        ent.length + sEntries.length < mx →
        deleteEntry key val curPid fuel t stack idxMap =
          deleteInternalEntry (pentries.getD (idxInParent + 1).toNat (0, 0)).1
            (pentries.getD (idxInParent + 1).toNat (0, 0)).2 parentPid fuel
            (setPage (setPage t curPid (.leaf ent next parent mx)) curPid
              (.leaf (ent ++ sEntries) sNext parent mx))
            stack.dropLast idxMap)
    ∧ (treeS4b.rootPageId = 0
        ∧ getPage treeS4b 0 = some (.leaf [(1, 1), (2, 2), (3, 3)] (-1) 2 4)) := by
  have hparent2 : getPage (setPage t curPid (BTPage.leaf ent next parent mx)) parentPid =
      some (.internal pentries pparent pmax) := by
    rw [getPage_setPage, if_neg hpar_ne]
    exact hparent
  refine ⟨?_, ?_, by decide, by decide⟩
  · intro hlast sEntries sNext sParent sMx hsib hsib_ne hmsz
    have hsib2 : getPage (setPage t curPid (BTPage.leaf ent next parent mx))
        (pentries.getD (idxInParent - 1).toNat (0, 0)).2 =
        some (.leaf sEntries sNext sParent sMx) := by
      rw [getPage_setPage, if_neg hsib_ne]
      exact hsib
    simp only [deleteEntry, hcur, hdel, setPage_rootPageId, hstack, hidx, hparent2]
    rw [if_neg (show ¬ (curPid = t.rootPageId ∧ ent.length = 0) from fun h => hroot h.1)]
    rw [if_neg hroot]
    rw [if_neg (show ¬ ((mx : Int) ≤ (ent.length : Int)) from by omega)]
    simp only [if_pos hlast, hsib2]
    rw [if_pos hmsz]
  · intro hlast sEntries sNext sParent sMx hsib hsib_ne hmsz
    have hsib2 : getPage (setPage t curPid (BTPage.leaf ent next parent mx))
        (pentries.getD (idxInParent + 1).toNat (0, 0)).2 =
        some (.leaf sEntries sNext sParent sMx) := by
      rw [getPage_setPage, if_neg hsib_ne]
      exact hsib
    simp only [deleteEntry, hcur, hdel, setPage_rootPageId, hstack, hidx, hparent2]
    rw [if_neg (show ¬ (curPid = t.rootPageId ∧ ent.length = 0) from fun h => hroot h.1)]
    rw [if_neg hroot]
    rw [if_neg (show ¬ ((mx : Int) ≤ (ent.length : Int)) from by omega)]
    simp only [if_neg hlast, hsib2]
    rw [if_pos hmsz]

/-- Witness for C1 at the configuration reached while deleting 4 from the
state after S3-then-delete-5: leaf page 1 ([2, 3] after the delete) merges
into its left sibling page 0. -/
theorem c1_deleteEntry_merge_witness :
    (getPage treeS4a 1 = some (.leaf [(2, 2), (3, 3), (4, 4)] (-1) 2 4)
      ∧ leafDelete [(2, 2), (3, 3), (4, 4)] 4 4 = some [(2, 2), (3, 3)]
      ∧ (1 : Int) ≠ treeS4a.rootPageId
      ∧ ((([(2, 2), (3, 3)] : List (Int × Int)).length : Int) < ((4 : Nat) : Int))
      ∧ ([(2 : Int)]).getLast? = some 2
      ∧ tableLookup [((1 : Int), (1 : Int))] 1 = some 1
      ∧ getPage treeS4a 2 = some (.internal [(0, 0), (2, 1)] (-1) 5)
      ∧ (2 : Int) ≠ 1)
    ∧ (((1 : Int) = ((([(0, 0), (2, 1)] : List (Int × Int)).length : Int)) - 1 →
        ∀ sEntries sNext sParent sMx,
          getPage treeS4a ((([(0, 0), (2, 1)] : List (Int × Int)).getD
              ((1 : Int) - 1).toNat (0, 0)).2) = some (.leaf sEntries sNext sParent sMx) →
          (([(0, 0), (2, 1)] : List (Int × Int)).getD ((1 : Int) - 1).toNat (0, 0)).2 ≠ 1 →
          sEntries.length + ([(2, 2), (3, 3)] : List (Int × Int)).length < sMx →
          deleteEntry 4 4 1 20 treeS4a [2] [(1, 1)] =
            deleteInternalEntry
              ((([(0, 0), (2, 1)] : List (Int × Int)).getD (1 : Int).toNat (0, 0)).1) 1 2 20
              (setPage (setPage treeS4a 1 (.leaf [(2, 2), (3, 3)] (-1) 2 4))
                ((([(0, 0), (2, 1)] : List (Int × Int)).getD ((1 : Int) - 1).toNat (0, 0)).2)
                (.leaf (sEntries ++ [(2, 2), (3, 3)]) (-1) sParent sMx))
              ([(2 : Int)]).dropLast [(1, 1)])
      ∧ ((1 : Int) ≠ ((([(0, 0), (2, 1)] : List (Int × Int)).length : Int)) - 1 →
        ∀ sEntries sNext sParent sMx,
          getPage treeS4a ((([(0, 0), (2, 1)] : List (Int × Int)).getD
              ((1 : Int) + 1).toNat (0, 0)).2) = some (.leaf sEntries sNext sParent sMx) →
          (([(0, 0), (2, 1)] : List (Int × Int)).getD ((1 : Int) + 1).toNat (0, 0)).2 ≠ 1 →
          ([(2, 2), (3, 3)] : List (Int × Int)).length + sEntries.length < 4 →
          deleteEntry 4 4 1 20 treeS4a [2] [(1, 1)] =
            deleteInternalEntry
              ((([(0, 0), (2, 1)] : List (Int × Int)).getD ((1 : Int) + 1).toNat (0, 0)).1)
              ((([(0, 0), (2, 1)] : List (Int × Int)).getD ((1 : Int) + 1).toNat (0, 0)).2)
              2 20
              (setPage (setPage treeS4a 1 (.leaf [(2, 2), (3, 3)] (-1) 2 4)) 1
                (.leaf ([(2, 2), (3, 3)] ++ sEntries) sNext 2 4))
              ([(2 : Int)]).dropLast [(1, 1)])
      ∧ (treeS4b.rootPageId = 0
        ∧ getPage treeS4b 0 = some (.leaf [(1, 1), (2, 2), (3, 3)] (-1) 2 4))) :=
  ⟨⟨by decide, by decide, by decide, by decide, by decide, by decide, by decide, by decide⟩,
    c1_deleteEntry_merge 4 4 1 20 treeS4a [2] [(1, 1)]
      [(2, 2), (3, 3), (4, 4)] [(2, 2), (3, 3)] (-1) 2 4
      2 [(0, 0), (2, 1)] (-1) 5 1
      (by decide) (by decide) (by decide) (by decide) (by decide) (by decide) (by decide)
      (by decide)⟩

end BusTub
